import Mathlib

/-!
# Local-round consensus engine of the mixin kernel

A shallow embedding of `kernel/self.go` and `common/deposit.go`.

* Go `uint64` values are natural numbers; every run-time addition and
  multiplication of the source goes through `u64`, the reduction modulo `2 ^ 64`.
* Go maps with a small key space (`CacheRound`, `FinalRound`, `SnapshotsPool`,
  `SignaturesPool`) are functions from the key; `RoundHistory`, which the source
  ranges over, is an association list whose order stands for the order in which
  the Go runtime visits the map. Theorems hold for every list, hence for every
  visiting order.
* Calls to collaborators (store, transport, the topological counter) are recorded
  in a trace of `Call`s; what the collaborators answer is supplied by `Env`.
* Wall-clock readings are supplied by `Clock`.
-/

namespace Mixin

/-! ## Data model -/

/-- Reduction of a natural number to the range of a Go `uint64`. -/
def u64 (n : Nat) : Nat := n % 2 ^ 64

/-- The type `crypto.Hash`: an opaque fixed-size identifier. -/
abbrev CryptoHash := Nat

/-- The type `error` of Go, by its message. -/
abbrev Error := String

/-- The type `crypto.Signature`, by its canonical value. -/
structure Signature where
  raw : Nat
deriving DecidableEq, Repr

/-- The type `common.RoundLink`. -/
structure RoundLink where
  Self : CryptoHash
  External : CryptoHash
deriving DecidableEq, Repr

/-- The type `common.DepositData` of `deposit.go`. -/
structure DepositData where
  Chain : CryptoHash
  AssetKey : String
  TransactionHash : String
  OutputIndex : Nat
  Amount : Nat
deriving DecidableEq, Repr

/-- The type `common.Input`, as far as `deposit.go` uses it: the `Deposit` pointer. -/
structure Input where
  Deposit : Option DepositData
deriving DecidableEq, Repr

/-- The type `common.SignedTransaction`, as far as the sources use it. -/
structure SignedTransaction where
  Asset : CryptoHash
  Inputs : List Input
  Signatures : List (List Signature)
deriving DecidableEq, Repr

/-- The type `common.Snapshot`. `References` is a pointer in the source. -/
structure Snapshot where
  NodeId : CryptoHash
  Transaction : CryptoHash
  References : Option RoundLink
  RoundNumber : Nat
  Timestamp : Nat
  Signatures : List Signature
  Hash : CryptoHash
deriving DecidableEq, Repr

/-- The type `kernel.FinalRound`: a closed round. -/
structure FinalRound where
  NodeId : CryptoHash
  Number : Nat
  Start : Nat
  Hash : CryptoHash
deriving DecidableEq, Repr

/-- The type `kernel.CacheRound`: the open round of a node. -/
structure CacheRound where
  NodeId : CryptoHash
  Number : Nat
  Timestamp : Nat
  References : Option RoundLink
  Snapshots : List Snapshot
deriving DecidableEq, Repr

/-- The map `RoundHistory`, in the order in which a `range` visits it. -/
abbrev RoundHistoryMap := List (CryptoHash × List FinalRound)

/-- The type `kernel.RoundGraph`. A key without an entry maps to `none` (a nil pointer). -/
structure RoundGraph where
  CacheRound : CryptoHash → Option CacheRound
  FinalRound : CryptoHash → Option FinalRound
  RoundHistory : RoundHistoryMap

/-- The fields of `kernel.Node` that `self.go` reads or writes. -/
structure Node where
  IdForNetwork : CryptoHash
  Graph : RoundGraph
  ConsensusNodes : List CryptoHash
  SnapshotsPool : CryptoHash → List Signature
  SignaturesPool : CryptoHash → Option Signature
  CachePool : List Snapshot
  TopoCounter : Nat

/-- A call to a collaborator, or to the signing helper, in the order the source makes it. -/
inductive Call where
  | Next
  | WriteSnapshot (s : Snapshot) (topo : Nat)
  | SendSnapshotMessage (peer : CryptoHash) (s : Snapshot) (mode : Nat)
  | SendTransactionMessage (peer : CryptoHash) (tx : SignedTransaction)
  | StartNewRound (id : CryptoHash) (number : Nat) (refs : Option RoundLink) (start : Nat)
  | QueueAppendSnapshot (s : Snapshot) (finalized : Bool)
  | SignSnapshot (s : Snapshot)
deriving DecidableEq, Repr

/-- How a call of a node method ends: it returns an `error` (possibly nil), it panics,
or it is still polling the clock when the supplied readings run out. -/
inductive Outcome where
  | returned (err : Option Error)
  | panicked
  | spinning
deriving DecidableEq, Repr

/-- The result of running a node method: the node and the snapshot (passed by pointer)
as the method leaves them, the calls it made, and how it ended. -/
structure Run where
  node : Node
  snap : Snapshot
  calls : List Call
  outcome : Outcome

/-- Configuration constants and the parts of the repository that `self.go` calls but
that are not among the sources, taken as parameters. -/
structure Env where
  SnapshotRoundGap : Nat
  SnapshotReferenceThreshold : Nat
  sigString : Signature → String
  Gap : CacheRound → Nat × Nat
  asFinal : CacheRound → FinalRound
  ValidateSnapshot : CacheRound → Snapshot → Bool → Bool × CacheRound
  verifyFinalization : Node → List Signature → Bool
  CheckSync : Node → Bool
  PayloadHash : Snapshot → CryptoHash
  Sign : CryptoHash → Signature
  WriteSnapshot : Snapshot → Nat → Option Error
  StartNewRound : CryptoHash → Nat → Option RoundLink → Nat → Option Error
  QueueAppendSnapshot : CryptoHash → Snapshot → Bool → Option Error
  SendSnapshotMessage : CryptoHash → Snapshot → Nat → Option Error
  SendTransactionMessage : CryptoHash → SignedTransaction → Option Error

/-- The readings of `time.Now().UnixNano()` a call of `signSelfSnapshot` observes:
the one of `checkCacheCapability`, the successive ones of the stamping loop, and the
successive ones of `determinBestRound`, whose loop reads the clock anew for every
candidate it tests: `best k` is the reading of its `k`-th test. -/
structure Clock where
  capability : Nat
  stamps : List Nat
  best : Nat → Nat

/-! ## Maps -/

/-- The value `m[id]` of the `RoundHistory` map; a missing key gives the nil slice. -/
def histGet (m : RoundHistoryMap) (id : CryptoHash) : List FinalRound :=
  (m.lookup id).getD []

/-- The assignment `m[id] = v` on the `RoundHistory` map. -/
def histSet : RoundHistoryMap → CryptoHash → List FinalRound → RoundHistoryMap
  | [], id, v => [(id, v)]
  | (k, w) :: rest, id, v =>
    if k = id then (k, v) :: rest else (k, w) :: histSet rest id v

/-! ## `removeFromCache` and `checkCacheCapability` -/

/-- The method `removeFromCache`: the first entry with the hash of `s` is swapped with
the last entry and the slice is cut by one. -/
def removeFromCache (pool : List Snapshot) (s : Snapshot) : List Snapshot :=
  match pool.findIdx? (fun c => c.Hash == s.Hash), pool.getLast? with
  | some i, some last => (pool.set i last).dropLast
  | _, _ => pool

/-- The method `checkCacheCapability` at the clock reading `now`: the answer and the
`CachePool` as the in-place sort leaves it. `sort.Slice` is not stable; the stable
insertion sort stands for it. -/
def checkCacheCapability (env : Env) (now : Nat) (pool : List Snapshot) :
    Bool × List Snapshot :=
  if pool.length = 0 then (true, pool)
  else
    let sorted := pool.insertionSort (fun a b => a.Timestamp ≤ b.Timestamp)
    match sorted.head?, sorted.getLast? with
    | some first, some last =>
      if now ≥ u64 (first.Timestamp + env.SnapshotRoundGap * 3 / 2) then (true, sorted)
      else (decide (last.Timestamp < u64 (first.Timestamp + env.SnapshotRoundGap / 3 * 2)),
        sorted)
    | _, _ => (true, sorted)

/-! ## `determinBestRound` -/

/-- The local variables `best`, `start`, `height` of `determinBestRound`. -/
structure BestState where
  best : Option FinalRound
  start : Nat
  height : Nat
deriving DecidableEq, Repr

/-- The slice a history is replaced by at the top of the loop body: its last
`SnapshotReferenceThreshold` entries when it is longer than that. -/
def trimRounds (env : Env) (rounds : List FinalRound) : List FinalRound :=
  if rounds.length > env.SnapshotReferenceThreshold then
    rounds.drop (rounds.length - env.SnapshotReferenceThreshold)
  else rounds

/-- The test of the loop body that lets a candidate through: the projected completion
time, computed in `uint64`, is not after `now`. -/
def windowClosed (env : Env) (now rts rh : Nat) : Bool :=
  decide (u64 (rts + u64 (env.SnapshotRoundGap * rh)) ≤ now)

/-- One pass of the loop body of `determinBestRound`, after `rounds[0]` was read:
`r0` is `rounds[0]` and `len` is `len(rounds)`, which `uint64` converts unchanged;
`now` is the value `time.Now().UnixNano()` returns if the pass gets to the window
test. -/
def bestStep (env : Env) (self now : Nat) (st : BestState) (id : CryptoHash)
    (r0 : FinalRound) (len : Nat) : BestState :=
  let best1 := if id ≠ self ∧ st.best = none then some r0 else st.best
  let rts := r0.Start
  let rh := len
  if id = self ∨ rh < st.height then { st with best := best1 }
  else if !windowClosed env now rts rh then { st with best := best1 }
  else if rh > st.height ∨ rts > st.start then { best := some r0, start := rts, height := rh }
  else { st with best := best1 }

/-- The loop of `determinBestRound` over the entries still to visit, with `k` the
number of clock readings taken so far: a pass that is not left at the first `continue`
takes the reading `clock k`. The first component is `none` when `rounds[0]` is read off
an empty slice (a panic); the second is the map as the loop leaves it. -/
def bestLoop (env : Env) (self : Nat) (clock : Nat → Nat) :
    Nat → BestState → RoundHistoryMap → Option BestState × RoundHistoryMap
  | _, st, [] => (some st, [])
  | k, st, (id, rounds) :: rest =>
    match trimRounds env rounds with
    | [] => (none, (id, []) :: rest)
    | r0 :: tl =>
      let res := bestLoop env self clock
        (if id = self ∨ (r0 :: tl).length < st.height then k else k + 1)
        (bestStep env self (clock k) st id r0 (r0 :: tl).length) rest
      (res.1, (id, r0 :: tl) :: res.2)

/-- The method `determinBestRound` under the clock readings `clock`: the returned
pointer (`none` outside for a panic, `none` inside for nil) and the new
`RoundHistory`. -/
def determinBestRound (env : Env) (self : Nat) (clock : Nat → Nat)
    (hist : RoundHistoryMap) : Option (Option FinalRound) × RoundHistoryMap :=
  let res := bestLoop env self clock 0 { best := none, start := 0, height := 0 } hist
  (res.1.map (fun st => st.best), res.2)

/-! ## Helpers of the node that are not among the sources -/

/-- Modelled from the spec: `queueSnapshotOrPanic` is not among the sources. The spec
says it re-enqueues the snapshot for a later retry; its name says a failure of the
queue is a panic. -/
def queueSnapshotOrPanic (env : Env) (node : Node) (s : Snapshot) (finalized : Bool)
    (calls : List Call) : Run :=
  match env.QueueAppendSnapshot node.IdForNetwork s finalized with
  | some _ => ⟨node, s, calls ++ [Call.QueueAppendSnapshot s finalized], Outcome.panicked⟩
  | none => ⟨node, s, calls ++ [Call.QueueAppendSnapshot s finalized], Outcome.returned none⟩

/-- Modelled from the spec: `clearAndQueueSnapshotOrPanic` is not among the sources.
The spec says a stale snapshot is cleared from the pending pools and requeued. -/
def clearAndQueueSnapshotOrPanic (env : Env) (node : Node) (s : Snapshot) : Run :=
  queueSnapshotOrPanic env
    { node with
      SnapshotsPool := Function.update node.SnapshotsPool s.Hash []
      SignaturesPool := Function.update node.SignaturesPool s.Hash none }
    s false []

/-- Modelled from the spec: `signSnapshot` is not among the sources. The spec says
signing produces the local signature and that the signed snapshot becomes a pending
entry of the pools under its hash. -/
def signSnapshot (env : Env) (node : Node) (s : Snapshot) : Node × Snapshot :=
  let h := env.PayloadHash s
  let sig := env.Sign h
  ({ node with
      SnapshotsPool := Function.update node.SnapshotsPool h (node.SnapshotsPool h ++ [sig])
      SignaturesPool := Function.update node.SignaturesPool h (some sig) },
   { s with Hash := h })

/-! ## `collectSelfSignatures` -/

/-- The second loop of the merge: `filter` holds the keys seen so far. -/
def mergeLoop (str : Signature → String) :
    List String → List Signature → List Signature → List Signature
  | _, osigs, [] => osigs
  | filter, osigs, sig :: rest =>
    if str sig ∈ filter then mergeLoop str filter osigs rest
    else mergeLoop str (str sig :: filter) (osigs ++ [sig]) rest

/-- The merge of `collectSelfSignatures`: the filter is filled with the keys of the
pool, then the incoming signatures are appended unless their key is in the filter. -/
def mergeSignatures (str : Signature → String) (pool incoming : List Signature) :
    List Signature :=
  mergeLoop str (pool.map str) pool incoming

/-- The final loop of `collectSelfSignatures`: the snapshot is sent to every consensus
node until a send fails. -/
def floodSnapshot (env : Env) (s : Snapshot) (mode : Nat) :
    List CryptoHash → List Call × Option Error
  | [] => ([], none)
  | p :: ps =>
    match env.SendSnapshotMessage p s mode with
    | some e => ([Call.SendSnapshotMessage p s mode], some e)
    | none =>
      let res := floodSnapshot env s mode ps
      (Call.SendSnapshotMessage p s mode :: res.1, res.2)

/-- The part of `collectSelfSignatures` after the quorum test succeeded, on the node
with the merged pool stored. `TopoCounter.Next` adds one and returns the new value. -/
def finalizeSnapshot (env : Env) (node : Node) (s : Snapshot) (cache : CacheRound)
    (osigs : List Signature) : Run :=
  let s1 := { s with Signatures := osigs }
  let topo := u64 (node.TopoCounter + 1)
  let node1 := { node with TopoCounter := topo }
  let calls := [Call.Next, Call.WriteSnapshot s1 topo]
  match env.WriteSnapshot s1 topo with
  | some _ => ⟨node1, s1, calls, Outcome.panicked⟩
  | none =>
    let v := env.ValidateSnapshot cache s1 true
    if !v.1 then ⟨node1, s1, calls, Outcome.panicked⟩
    else
      let node2 := { node1 with
        Graph := { node1.Graph with
          CacheRound := Function.update node1.Graph.CacheRound s.NodeId (some v.2) }
        CachePool := removeFromCache node1.CachePool s1 }
      let sent := floodSnapshot env s1 1 node2.ConsensusNodes
      ⟨node2, s1, calls ++ sent.1, Outcome.returned sent.2⟩

/-- The method `collectSelfSignatures`. -/
def collectSelfSignatures (env : Env) (node : Node) (s : Snapshot) : Run :=
  if s.NodeId ≠ node.IdForNetwork ∨ s.Signatures.length ≠ 1 then
    ⟨node, s, [], Outcome.panicked⟩
  else if (node.SnapshotsPool s.Hash).length = 0 ∨ node.SignaturesPool s.Hash = none then
    ⟨node, s, [], Outcome.returned none⟩
  else
    match node.Graph.CacheRound s.NodeId with
    | none => ⟨node, s, [], Outcome.panicked⟩
    | some cache =>
      if s.RoundNumber < cache.Number then clearAndQueueSnapshotOrPanic env node s
      else
        let v := env.ValidateSnapshot cache s false
        if !v.1 then clearAndQueueSnapshotOrPanic env node s
        else
          let osigs := mergeSignatures env.sigString (node.SnapshotsPool s.Hash) s.Signatures
          let node1 := { node with
            SnapshotsPool := Function.update node.SnapshotsPool s.Hash osigs }
          if !env.verifyFinalization node1 osigs then
            ⟨node1, s, [], Outcome.returned none⟩
          else finalizeSnapshot env node1 s v.2 osigs

/-! ## `signSelfSnapshot` -/

/-- The stamping loop: the clock is read until a reading exceeds the timestamp of the
cache round; `none` when the supplied readings run out first. -/
def stampLoop (cacheTimestamp : Nat) : List Nat → Option Nat
  | [] => none
  | t :: ts => if t > cacheTimestamp then some t else stampLoop cacheTimestamp ts

/-- The broadcast loop of `signSelfSnapshot`: transaction and snapshot are sent to
every consensus node until a send fails. -/
def broadcastSigned (env : Env) (s : Snapshot) (tx : SignedTransaction) :
    List CryptoHash → List Call × Option Error
  | [] => ([], none)
  | p :: ps =>
    match env.SendTransactionMessage p tx with
    | some e => ([Call.SendTransactionMessage p tx], some e)
    | none =>
      match env.SendSnapshotMessage p s 0 with
      | some e => ([Call.SendTransactionMessage p tx, Call.SendSnapshotMessage p s 0], some e)
      | none =>
        let res := broadcastSigned env s tx ps
        (Call.SendTransactionMessage p tx :: Call.SendSnapshotMessage p s 0 :: res.1, res.2)

/-- The tail of `signSelfSnapshot` from `cache.Timestamp = s.Timestamp` on, with the
local `cache` and `final` as the rotation branch left them and the calls made so far. -/
def finishSign (env : Env) (node : Node) (s : Snapshot) (tx : SignedTransaction)
    (cache : CacheRound) (final : FinalRound) (calls : List Call) : Run :=
  let cache1 := { cache with Timestamp := s.Timestamp }
  let s1 := { s with RoundNumber := cache1.Number, References := cache1.References }
  let node1 := { node with
    Graph :=
      { CacheRound := Function.update node.Graph.CacheRound s.NodeId (some cache1)
        FinalRound := Function.update node.Graph.FinalRound s.NodeId (some final)
        RoundHistory := histSet node.Graph.RoundHistory s.NodeId
          (histGet node.Graph.RoundHistory s.NodeId ++ [final]) } }
  let signed := signSnapshot env node1 s1
  let s2 := { signed.2 with Signatures := (signed.1.SignaturesPool signed.2.Hash).toList }
  let sent := broadcastSigned env s2 tx signed.1.ConsensusNodes
  match sent.2 with
  | some e => ⟨signed.1, s2, calls ++ Call.SignSnapshot s1 :: sent.1, Outcome.returned (some e)⟩
  | none =>
    ⟨{ signed.1 with CachePool := signed.1.CachePool ++ [s2] }, s2,
      calls ++ Call.SignSnapshot s1 :: sent.1, Outcome.returned none⟩

/-- The rotation branch of `signSelfSnapshot`, entered when the stamped timestamp has
reached `start + SnapshotRoundGap`. -/
def rotateRound (env : Env) (clock : Clock) (node : Node) (s : Snapshot)
    (tx : SignedTransaction) (cache : CacheRound) (final : FinalRound) : Run :=
  let found := determinBestRound env node.IdForNetwork clock.best node.Graph.RoundHistory
  let node1 := { node with Graph := { node.Graph with RoundHistory := found.2 } }
  match found.1 with
  | some (some best) =>
    if best.NodeId = final.NodeId then ⟨node1, s, [], Outcome.panicked⟩
    else
      let final1 := env.asFinal cache
      let cache1 : CacheRound :=
        { NodeId := s.NodeId
          Number := u64 (final1.Number + 1)
          Timestamp := 0
          References := some { Self := final1.Hash, External := best.Hash }
          Snapshots := [] }
      let call := Call.StartNewRound cache1.NodeId cache1.Number cache1.References final1.Start
      match env.StartNewRound cache1.NodeId cache1.Number cache1.References final1.Start with
      | some _ => ⟨node1, s, [call], Outcome.panicked⟩
      | none => finishSign env { node1 with CachePool := [] } s tx cache1 final1 [call]
  | _ => ⟨node1, s, [], Outcome.panicked⟩

/-- The method `signSelfSnapshot`. `Copy` returns a round equal to its receiver, and a
nil receiver makes it panic. -/
def signSelfSnapshot (env : Env) (clock : Clock) (node : Node) (s : Snapshot)
    (tx : SignedTransaction) : Run :=
  if s.NodeId ≠ node.IdForNetwork ∨ s.Signatures.length ≠ 0 ∨ s.Timestamp ≠ 0 then
    ⟨node, s, [], Outcome.panicked⟩
  else
    match node.Graph.CacheRound s.NodeId, node.Graph.FinalRound s.NodeId with
    | some cache, some final =>
      let cap := checkCacheCapability env clock.capability node.CachePool
      let node1 := { node with CachePool := cap.2 }
      if !cap.1 then queueSnapshotOrPanic env node1 s false []
      else if !env.CheckSync node1 && cache.Snapshots.length == 0 then
        queueSnapshotOrPanic env node1 s false []
      else
        match stampLoop cache.Timestamp clock.stamps with
        | none => ⟨node1, s, [], Outcome.spinning⟩
        | some ts =>
          let s1 := { s with Timestamp := ts }
          if ts ≥ u64 ((env.Gap cache).1 + env.SnapshotRoundGap) then
            rotateRound env clock node1 s1 tx cache final
          else finishSign env node1 s1 tx cache final []
    | _, _ => ⟨node, s, [], Outcome.panicked⟩

/-- A run signed a snapshot when it reached the call of `signSnapshot`. -/
def Run.signed (r : Run) : Prop := ∃ s, Call.SignSnapshot s ∈ r.calls

/-- A run rotated the round when it called `StartNewRound`. -/
def Run.rotated (r : Run) : Prop := ∃ id n refs st, Call.StartNewRound id n refs st ∈ r.calls

/-! ## Vocabulary of the statements about `determinBestRound` -/

/-- The round `rounds[0]` the loop reads for an entry of the map, after trimming. -/
def firstRound (env : Env) (e : CryptoHash × List FinalRound) : Option FinalRound :=
  (trimRounds env e.2).head?

/-- The projected completion time of the entry `e` with first retained round `r`:
Start plus SnapshotRoundGap times the retained history length, as `uint64` sums. -/
def projectedEnd (env : Env) (e : CryptoHash × List FinalRound) (r : FinalRound) : Nat :=
  u64 (r.Start + u64 (env.SnapshotRoundGap * (trimRounds env e.2).length))

/-- The pair (history length, Start) the loop compares for an entry. -/
def candKey (env : Env) (e : CryptoHash × List FinalRound) : Nat × Nat :=
  ((trimRounds env e.2).length, ((firstRound env e).map (fun r => r.Start)).getD 0)

/-- The lexicographic order on pairs (history length, Start). -/
def lexLe (a b : Nat × Nat) : Prop := a.1 < b.1 ∨ (a.1 = b.1 ∧ a.2 ≤ b.2)

/-- The round the loop falls back to: `rounds[0]` of the first visited entry of
another node than the local one. -/
def fallbackRound (env : Env) (self : Nat) (vis : RoundHistoryMap) : Option FinalRound :=
  (vis.find? (fun e => decide (e.1 ≠ self))).bind (firstRound env)

/-- The loop invariant of `determinBestRound` after the entries `vis` were visited and
`k` clock readings were taken: either no window was found closed, the state is the
fallback and every entry of another node was open at a reading; or `best` belongs to an
entry found closed at a reading, and every entry of another node is below it in the
lexicographic order or was open at a reading. -/
def BestInv (env : Env) (self : Nat) (clock : Nat → Nat) (vis : RoundHistoryMap) (k : Nat)
    (st : BestState) : Prop :=
  k ≤ vis.length ∧ (∀ e ∈ vis, firstRound env e ≠ none) ∧
  ((st.height = 0 ∧ st.start = 0 ∧ st.best = fallbackRound env self vis ∧
      ∀ e ∈ vis, e.1 ≠ self → ∀ r, firstRound env e = some r →
        ∃ j, j < k ∧ clock j < projectedEnd env e r) ∨
  (∃ e ∈ vis, ∃ r, e.1 ≠ self ∧ firstRound env e = some r ∧ st.best = some r ∧
      (st.height, st.start) = candKey env e ∧
      (∃ j, j < k ∧ projectedEnd env e r ≤ clock j) ∧
      ∀ e2 ∈ vis, e2.1 ≠ self → ∀ r2, firstRound env e2 = some r2 →
        lexLe (candKey env e2) (candKey env e) ∨
          ∃ j, j < k ∧ clock j < projectedEnd env e2 r2))

/-! ## A sample environment -/

/-- A sample environment: a round gap of 10, a history window of 5, signatures keyed
by the unary rendering of their value, a quorum of two thirds plus one, and
collaborators that never fail. -/
def sampleEnv : Env where
  SnapshotRoundGap := 10
  SnapshotReferenceThreshold := 5
  sigString := fun sig => String.mk (List.replicate sig.raw 'a')
  Gap := fun c => (((c.Snapshots.head?).map (fun s => s.Timestamp)).getD c.Timestamp, c.Timestamp)
  asFinal := fun c => ⟨c.NodeId, c.Number, c.Timestamp, c.Number + 1000⟩
  ValidateSnapshot := fun c s add =>
    (true, if add then { c with Snapshots := c.Snapshots ++ [s] } else c)
  verifyFinalization := fun node sigs =>
    decide (node.ConsensusNodes.length * 2 / 3 + 1 ≤ sigs.length)
  CheckSync := fun _ => true
  PayloadHash := fun s => s.Transaction + s.Timestamp
  Sign := fun h => ⟨h⟩
  WriteSnapshot := fun _ _ => none
  StartNewRound := fun _ _ _ _ => none
  QueueAppendSnapshot := fun _ _ _ => none
  SendSnapshotMessage := fun _ _ _ => none
  SendTransactionMessage := fun _ _ => none

/-! ## Vocabulary of the statements about `collectSelfSignatures` -/

/-- The signatures the second loop of the merge appends, in order. -/
def freshSigs (str : Signature → String) : List String → List Signature → List Signature
  | _, [] => []
  | filter, sig :: rest =>
    if str sig ∈ filter then freshSigs str filter rest
    else sig :: freshSigs str (str sig :: filter) rest

/-- The call passes every guard before the merge: the precondition holds, there is a
pending entry, the cache round exists, the snapshot is not behind it and the round
validates it. -/
def reachesMerge (env : Env) (node : Node) (s : Snapshot) : Bool :=
  decide (s.NodeId = node.IdForNetwork ∧ s.Signatures.length = 1) &&
  decide ((node.SnapshotsPool s.Hash).length ≠ 0 ∧ node.SignaturesPool s.Hash ≠ none) &&
  match node.Graph.CacheRound s.NodeId with
  | none => false
  | some cache => decide (¬ s.RoundNumber < cache.Number) && (env.ValidateSnapshot cache s false).1

/-- The merged set of the call satisfies `verifyFinalization`, evaluated as the source
does on the node that already stores the merged pool. -/
def quorate (env : Env) (node : Node) (s : Snapshot) : Bool :=
  env.verifyFinalization
    { node with
      SnapshotsPool := Function.update node.SnapshotsPool s.Hash
        (mergeSignatures env.sigString (node.SnapshotsPool s.Hash) s.Signatures) }
    (mergeSignatures env.sigString (node.SnapshotsPool s.Hash) s.Signatures)

/-- A variant of the sample environment with a quorum of two signatures and a round
validation that rejects a snapshot whose hash the round already holds. -/
def strictEnv : Env :=
  { sampleEnv with
    ValidateSnapshot := fun c s add =>
      if c.Snapshots.any (fun x => x.Hash == s.Hash) then (false, c)
      else (true, if add then { c with Snapshots := c.Snapshots ++ [s] } else c)
    verifyFinalization := fun _ sigs => decide (2 ≤ sigs.length) }

/-- A node with the pending pool `pool` under hash 9, an open round 1 of the local node 0
and five consensus nodes, so that the sample quorum is four signatures. -/
def pendingNode (pool : List Signature) : Node where
  IdForNetwork := 0
  Graph :=
    { CacheRound := fun id => if id = 0 then some ⟨0, 1, 50, some ⟨1000, 2000⟩, []⟩ else none
      FinalRound := fun id => if id = 0 then some ⟨0, 0, 10, 1000⟩ else none
      RoundHistory := [(0, [⟨0, 0, 10, 1000⟩]), (1, [⟨1, 0, 5, 2000⟩])] }
  ConsensusNodes := [1, 2, 3, 4, 5]
  SnapshotsPool := fun h => if h = 9 then pool else []
  SignaturesPool := fun h => if h = 9 then some ⟨1⟩ else none
  CachePool := []
  TopoCounter := 0

/-- A snapshot of the local node 0 with hash 9 that carries the one signature `sig`. -/
def snapWith (sig : Signature) : Snapshot :=
  ⟨0, 77, some ⟨1000, 2000⟩, 1, 55, [sig], 9⟩

/-! ## Vocabulary of the statements about `signSelfSnapshot` -/

/-- The bound `start + config.SnapshotRoundGap` the stamped timestamp is compared with,
computed in `uint64` from the cache round as the call found it. -/
def rotationBound (env : Env) (cache : CacheRound) : Nat :=
  u64 ((env.Gap cache).1 + env.SnapshotRoundGap)

/-- The cache round the rotation branch opens after `cache`, with `best` as chosen by
`determinBestRound`, before its timestamp is set. -/
def rotatedCache (env : Env) (s : Snapshot) (cache : CacheRound) (best : FinalRound) :
    CacheRound :=
  { NodeId := s.NodeId
    Number := u64 ((env.asFinal cache).Number + 1)
    Timestamp := 0
    References := some { Self := (env.asFinal cache).Hash, External := best.Hash }
    Snapshots := [] }

/-- The node as the rotation branch leaves it before the tail of the method runs:
the cache pool sorted by `checkCacheCapability` and then emptied, the histories trimmed
by `determinBestRound`. -/
def rotatedNode (env : Env) (clock : Clock) (node : Node) : Node :=
  { node with
    Graph := { node.Graph with
      RoundHistory :=
        (determinBestRound env node.IdForNetwork clock.best node.Graph.RoundHistory).2 }
    CachePool := [] }

/-- The call stamps the timestamp `ts`: the precondition of the method holds, `cache`
and `final` are the rounds of the local node, the backpressure heuristic reports
capacity, the node is synchronized or has buffered snapshots, and `ts` is the first
clock reading above the timestamp of `cache`. -/
def stamps (env : Env) (clock : Clock) (node : Node) (s : Snapshot) (cache : CacheRound)
    (final : FinalRound) (ts : Nat) : Prop :=
  (s.NodeId = node.IdForNetwork ∧ s.Signatures.length = 0 ∧ s.Timestamp = 0) ∧
  node.Graph.CacheRound s.NodeId = some cache ∧
  node.Graph.FinalRound s.NodeId = some final ∧
  (checkCacheCapability env clock.capability node.CachePool).1 = true ∧
  ¬ ((!env.CheckSync
      { node with CachePool := (checkCacheCapability env clock.capability node.CachePool).2 } &&
    cache.Snapshots.length == 0) = true) ∧
  stampLoop cache.Timestamp clock.stamps = some ts

/-- The numbers of a history are strictly increasing without gaps. -/
def consecutive : List FinalRound → Bool
  | [] => true
  | [_] => true
  | a :: b :: rest => decide (b.Number = a.Number + 1) && consecutive (b :: rest)

/-- An unsigned shell of the local node 0 for the transaction 77. -/
def shellSnapshot : Snapshot := ⟨0, 77, none, 0, 0, [], 0⟩

/-- A transaction to broadcast with the snapshot. -/
def sampleTx : SignedTransaction := ⟨5, [], []⟩

/-- Clock readings inside the round gap: the cache round of `pendingNode` has the
timestamp 50 and the sample gap is 10. -/
def clockInside : Clock := ⟨55, [55], fun _ => 55⟩

/-- Clock readings past the round gap, after one reading that is not yet past the
timestamp of the cache round. -/
def clockPast : Clock := ⟨70, [40, 70], fun _ => 70⟩

/-! ## `validateDepositInput` -/

/-- The type `crypto.Key`. -/
abbrev CryptoKey := Nat

/-- The type `common.Address`, as far as `deposit.go` uses it. -/
structure Address where
  PublicSpendKey : CryptoKey
deriving DecidableEq, Repr

/-- The type `common.Domain`, as far as `deposit.go` uses it. -/
structure Domain where
  Account : Address
deriving DecidableEq, Repr

/-- The parts of the repository that `deposit.go` calls but that are not among the
sources, taken as parameters: the two methods of `DepositData` (on a pointer that may
be nil), the domain list the store returns and the signature check of a key. -/
structure DepositEnv where
  validateEthereumAssetInput : Option DepositData → Option Error
  AssetId : Option DepositData → CryptoHash
  ReadDomains : List Domain
  Verify : CryptoKey → List Nat → Signature → Bool

/-- The result of `validateDepositInput`: how it ended and whether it called
`store.ReadDomains()`. -/
structure DepositRun where
  outcome : Outcome
  readDomains : Bool
deriving DecidableEq, Repr

/-- The method `verifyDepositFormat`. Reading `tx.Inputs[0]` off an empty slice is a
panic. -/
def verifyDepositFormat (denv : DepositEnv) (tx : SignedTransaction) : Outcome :=
  match tx.Inputs[0]? with
  | none => Outcome.panicked
  | some input =>
    match denv.validateEthereumAssetInput input.Deposit with
    | some err => Outcome.returned (some err)
    | none =>
      if denv.AssetId input.Deposit ≠ tx.Asset then Outcome.returned (some "invalid asset")
      else Outcome.returned none

/-- The loop of `validateDepositInput` over the domains, left at the first key that
verifies the signature. -/
def domainLoop (denv : DepositEnv) (msg : List Nat) (sig : Signature) : List Domain → Bool
  | [] => false
  | d :: ds =>
    if denv.Verify d.Account.PublicSpendKey msg sig then true else domainLoop denv msg sig ds

/-- The method `validateDepositInput`. The second test of the source is an `||` whose
right side, which reads `tx.Signatures[0]`, is evaluated only when the left side is
false. -/
def validateDepositInput (denv : DepositEnv) (tx : SignedTransaction) (msg : List Nat) :
    DepositRun :=
  if tx.Inputs.length ≠ 1 then
    ⟨Outcome.returned (some "invalid inputs count for deposit"), false⟩
  else if tx.Signatures.length ≠ 1 then
    ⟨Outcome.returned (some "invalid signatures count for deposit"), false⟩
  else
    match tx.Signatures[0]? with
    | none => ⟨Outcome.panicked, false⟩
    | some group =>
      if group.length ≠ 1 then
        ⟨Outcome.returned (some "invalid signatures count for deposit"), false⟩
      else
        match verifyDepositFormat denv tx with
        | Outcome.returned none =>
          match group[0]? with
          | none => ⟨Outcome.panicked, false⟩
          | some sig =>
            if domainLoop denv msg sig denv.ReadDomains then ⟨Outcome.returned none, true⟩
            else ⟨Outcome.returned (some "invalid domain signature for deposit"), true⟩
        | other => ⟨other, false⟩

/-! ## `checkCacheSnapshotTransaction` -/

/-- The store and the transaction methods `checkCacheSnapshotTransaction` calls, and
the mint validation of the node, none of them among the sources, taken as parameters.
A result pair holds the value and the `error` of the Go call. -/
structure StoreEnv where
  CheckTransactionInNode : CryptoHash → CryptoHash → Bool × Option Error
  CheckTransactionFinalization : CryptoHash → Bool × Option Error
  ReadTransaction : CryptoHash → Option SignedTransaction × Option Error
  CacheGetTransaction : CryptoHash → Option SignedTransaction × Option Error
  CheckMint : SignedTransaction → Bool
  validateMintTransaction : SignedTransaction → Option Error
  Validate : SignedTransaction → Option Error
  LockInputs : SignedTransaction → Bool → Option Error
  WriteTransaction : SignedTransaction → Option Error

/-- A call `checkCacheSnapshotTransaction` makes, in the order of the source. -/
inductive StoreCall where
  | CheckTransactionInNode (id hash : CryptoHash)
  | CheckTransactionFinalization (hash : CryptoHash)
  | ReadTransaction (hash : CryptoHash)
  | CacheGetTransaction (hash : CryptoHash)
  | validateMintTransaction (tx : SignedTransaction)
  | Validate (tx : SignedTransaction)
  | LockInputs (tx : SignedTransaction) (force : Bool)
  | WriteTransaction (tx : SignedTransaction)
deriving DecidableEq, Repr

/-- The result of `checkCacheSnapshotTransaction`: the two returned values and the
calls made. -/
structure AdmissionRun where
  tx : Option SignedTransaction
  err : Option Error
  calls : List StoreCall
deriving DecidableEq, Repr

/-- The part of `checkCacheSnapshotTransaction` from `tx.CheckMint()` on, for the
candidate `tx` read from the cache, after the calls `calls`. -/
def admitCandidate (st : StoreEnv) (tx : SignedTransaction) (calls : List StoreCall) :
    AdmissionRun :=
  let mint := if st.CheckMint tx then [StoreCall.validateMintTransaction tx] else []
  if st.CheckMint tx = true ∧ st.validateMintTransaction tx ≠ none then
    ⟨none, none, calls ++ mint⟩
  else
    match st.Validate tx with
    | some _ => ⟨none, none, calls ++ mint ++ [StoreCall.Validate tx]⟩
    | none =>
      match st.LockInputs tx false with
      | some e =>
        ⟨none, some e, calls ++ mint ++ [StoreCall.Validate tx, StoreCall.LockInputs tx false]⟩
      | none =>
        ⟨some tx, st.WriteTransaction tx,
          calls ++ mint ++ [StoreCall.Validate tx, StoreCall.LockInputs tx false,
            StoreCall.WriteTransaction tx]⟩

/-- The method `checkCacheSnapshotTransaction`. -/
def checkCacheSnapshotTransaction (st : StoreEnv) (s : Snapshot) : AdmissionRun :=
  let c1 := StoreCall.CheckTransactionInNode s.NodeId s.Transaction
  let r1 := st.CheckTransactionInNode s.NodeId s.Transaction
  if r1.2 ≠ none ∨ r1.1 = true then ⟨none, r1.2, [c1]⟩
  else
    let c2 := StoreCall.CheckTransactionFinalization s.Transaction
    let r2 := st.CheckTransactionFinalization s.Transaction
    if r2.2 ≠ none ∨ r2.1 = true then ⟨none, r2.2, [c1, c2]⟩
    else
      let c3 := StoreCall.ReadTransaction s.Transaction
      let r3 := st.ReadTransaction s.Transaction
      if r3.2 ≠ none ∨ r3.1 ≠ none then ⟨r3.1, r3.2, [c1, c2, c3]⟩
      else
        let c4 := StoreCall.CacheGetTransaction s.Transaction
        let r4 := st.CacheGetTransaction s.Transaction
        if r4.2 ≠ none then ⟨none, r4.2, [c1, c2, c3, c4]⟩
        else
          match r4.1 with
          | none => ⟨none, r4.2, [c1, c2, c3, c4]⟩
          | some tx => admitCandidate st tx [c1, c2, c3, c4]

/-- The call is `store.WriteTransaction`. -/
def StoreCall.isWrite : StoreCall → Bool
  | StoreCall.WriteTransaction _ => true
  | _ => false

/-- The snapshot reaches the candidate `tx` of the transaction cache: it is neither in
the node nor finalized nor stored, every lookup is without error, and the cache holds
`tx`. -/
def reachesCandidate (st : StoreEnv) (s : Snapshot) (tx : SignedTransaction) : Prop :=
  st.CheckTransactionInNode s.NodeId s.Transaction = (false, none) ∧
  st.CheckTransactionFinalization s.Transaction = (false, none) ∧
  st.ReadTransaction s.Transaction = (none, none) ∧
  st.CacheGetTransaction s.Transaction = (some tx, none)

/-- The candidate passes validation: the mint validation when it is a mint, and
`Validate`. -/
def passesValidation (st : StoreEnv) (tx : SignedTransaction) : Prop :=
  (st.CheckMint tx = true → st.validateMintTransaction tx = none) ∧ st.Validate tx = none

/-! ## The reference decision of the backpressure heuristic -/

/-- The smallest timestamp in the pool (0 for the empty pool). -/
def oldestTimestamp : List Snapshot → Nat
  | [] => 0
  | s :: rest => rest.foldr (fun x m => min x.Timestamp m) s.Timestamp

/-- The greatest timestamp in the pool (0 for the empty pool). -/
def newestTimestamp : List Snapshot → Nat
  | [] => 0
  | s :: rest => rest.foldr (fun x m => max x.Timestamp m) s.Timestamp

/-- The reference decision, in the words of the spec: capacity exists when the pool is
empty, or `now` has reached the oldest timestamp plus `SnapshotRoundGap*3/2`, or the
newest timestamp is below the oldest plus `SnapshotRoundGap/3*2`; the sums are
`uint64` sums. -/
def capabilityReference (env : Env) (now : Nat) (pool : List Snapshot) : Bool :=
  pool.isEmpty ||
  decide (now ≥ u64 (oldestTimestamp pool + env.SnapshotRoundGap * 3 / 2)) ||
  decide (newestTimestamp pool < u64 (oldestTimestamp pool + env.SnapshotRoundGap / 3 * 2))

/-- A snapshot of the local node 0 with the given hash and timestamp. -/
def cached (hash ts : Nat) : Snapshot := ⟨0, 70 + hash, none, 1, ts, [], hash⟩

/-- A sample store in which nothing is known yet and the transaction cache holds the
sample transaction, with validation and locking succeeding. -/
def sampleStore : StoreEnv where
  CheckTransactionInNode := fun _ _ => (false, none)
  CheckTransactionFinalization := fun _ => (false, none)
  ReadTransaction := fun _ => (none, none)
  CacheGetTransaction := fun _ => (some sampleTx, none)
  CheckMint := fun _ => false
  validateMintTransaction := fun _ => none
  Validate := fun _ => none
  LockInputs := fun _ _ => none
  WriteTransaction := fun _ => none

/-- A sample deposit environment: one domain with key 7, a signature verifies under
the key equal to its value, every deposit is well formed and resolves to asset 5. -/
def sampleDeposit : DepositEnv where
  validateEthereumAssetInput := fun _ => none
  AssetId := fun _ => 5
  ReadDomains := [⟨⟨7⟩⟩]
  Verify := fun key _ sig => decide (key = sig.raw)

/-- The sample node with two cached snapshots spread over 7, more than two thirds of
the sample gap. -/
def crowdedNode : Node :=
  { pendingNode [] with CachePool := [cached 1 107, cached 2 100] }

/-- Clock readings shortly after the newest cached snapshot of `crowdedNode`. -/
def clockCrowded : Clock := ⟨110, [110], fun _ => 110⟩

/-- A clock that advances while `determinBestRound` runs: its readings are 100, 104 and
then 110. -/
def advancingClock : Nat → Nat := fun k => if k = 0 then 100 else if k = 1 then 104 else 110

/-- Three histories of other nodes: node 1 with two rounds from 85, node 3 with one
round from 10, node 2 with one round from 100. -/
def threeHistories : RoundHistoryMap :=
  [(1, [⟨1, 0, 85, 21⟩, ⟨1, 1, 95, 22⟩]), (3, [⟨3, 0, 10, 23⟩]), (2, [⟨2, 0, 100, 24⟩])]

/-- Seven closed rounds of node 1, numbered from 0. -/
def sevenRounds : List FinalRound :=
  [⟨1, 0, 1, 10⟩, ⟨1, 1, 2, 11⟩, ⟨1, 2, 3, 12⟩, ⟨1, 3, 4, 13⟩, ⟨1, 4, 5, 14⟩, ⟨1, 5, 6, 15⟩,
    ⟨1, 6, 7, 16⟩]

/-! ## Theorems: `determinBestRound` -/

theorem lexLe_refl (a : Nat × Nat) : lexLe a a := Or.inr ⟨rfl, le_refl _⟩

theorem lexLe_trans {a b c : Nat × Nat} (h1 : lexLe a b) (h2 : lexLe b c) : lexLe a c := by
  unfold lexLe at *
  omega

theorem firstRound_of_trim (env : Env) (id : CryptoHash) (rounds : List FinalRound)
    (r0 : FinalRound) (tl : List FinalRound) (h : trimRounds env rounds = r0 :: tl) :
    firstRound env (id, rounds) = some r0 := by
  simp [firstRound, h]

theorem candKey_of_trim (env : Env) (id : CryptoHash) (rounds : List FinalRound)
    (r0 : FinalRound) (tl : List FinalRound) (h : trimRounds env rounds = r0 :: tl) :
    candKey env (id, rounds) = (tl.length + 1, r0.Start) := by
  simp [candKey, firstRound, h]

theorem windowClosed_iff (env : Env) (id : CryptoHash) (rounds : List FinalRound)
    (r0 : FinalRound) (tl : List FinalRound) (h : trimRounds env rounds = r0 :: tl)
    (now : Nat) :
    windowClosed env now r0.Start (tl.length + 1) = true ↔
      projectedEnd env (id, rounds) r0 ≤ now := by
  simp [windowClosed, projectedEnd, h]

theorem exists_reading_mono {k k2 : Nat} (hk : k ≤ k2) {P : Nat → Prop}
    (h : ∃ j, j < k ∧ P j) : ∃ j, j < k2 ∧ P j := by
  obtain ⟨j, hj, hp⟩ := h
  exact ⟨j, Nat.lt_of_lt_of_le hj hk, hp⟩

theorem bestStep_keep (env : Env) (self now : Nat) (st : BestState) (id : CryptoHash)
    (r0 rb : FinalRound) (len : Nat) (hbs : st.best = some rb)
    (hc : (id = self ∨ len < st.height) ∨ windowClosed env now r0.Start len = false ∨
      ¬ (len > st.height ∨ r0.Start > st.start)) :
    bestStep env self now st id r0 len = st := by
  cases st with
  | mk b s h =>
    simp only at hbs hc
    subst hbs
    simp only [bestStep]
    split_ifs with h1 h2 h3 h4 h5 <;> simp_all

theorem bestStep_inv (env : Env) (self : Nat) (clock : Nat → Nat) (vis : RoundHistoryMap)
    (k : Nat) (st : BestState) (id : CryptoHash) (rounds : List FinalRound)
    (r0 : FinalRound) (tl : List FinalRound)
    (htrim : trimRounds env rounds = r0 :: tl) (h : BestInv env self clock vis k st) :
    BestInv env self clock (vis ++ [(id, rounds)])
      (if id = self ∨ (r0 :: tl).length < st.height then k else k + 1)
      (bestStep env self (clock k) st id r0 (r0 :: tl).length) := by
  have hfirst := firstRound_of_trim env id rounds r0 tl htrim
  have hkey := candKey_of_trim env id rounds r0 tl htrim
  have hwc := windowClosed_iff env id rounds r0 tl htrim (clock k)
  have hlen : (r0 :: tl).length = tl.length + 1 := rfl
  rw [hlen]
  obtain ⟨hk, hne, h⟩ := h
  have hk2 : k ≤ (if id = self ∨ tl.length + 1 < st.height then k else k + 1) := by
    split_ifs <;> omega
  refine ⟨?_, ?_, ?_⟩
  · rw [List.length_append, List.length_singleton]
    split_ifs <;> omega
  · intro e he
    rcases List.mem_append.1 he with he | he
    · exact hne e he
    · simp only [List.mem_singleton] at he
      subst he
      simp [hfirst]
  rcases h with ⟨hh, hs, hbest, hopen⟩ | ⟨e, he, r, hne_e, hfr, hbest, hk3, hclosed, hmax⟩
  · by_cases hid : id = self
    · left
      refine ⟨?_, ?_, ?_, ?_⟩
      · simp [bestStep, hid, hh]
      · simp [bestStep, hid, hs]
      · have hb1 : (bestStep env self (clock k) st id r0 (tl.length + 1)).best = st.best := by
          simp [bestStep, hid]
        rw [hb1, hbest]
        unfold fallbackRound
        rw [List.find?_append]
        simp [hid]
      · intro e he hes r hr
        rcases List.mem_append.1 he with he | he
        · exact exists_reading_mono hk2 (hopen e he hes r hr)
        · simp only [List.mem_singleton] at he
          subst he
          exact absurd hid hes
    · have hnlt : ¬ (id = self ∨ tl.length + 1 < st.height) := by
        rw [hh]
        simp [hid]
      rw [if_neg hnlt]
      by_cases hw : windowClosed env (clock k) r0.Start (tl.length + 1) = true
      · right
        have hst : bestStep env self (clock k) st id r0 (tl.length + 1) =
            { best := some r0, start := r0.Start, height := tl.length + 1 } := by
          simp [bestStep, hid, hh, hw]
        rw [hst]
        refine ⟨(id, rounds), by simp, r0, hid, hfirst, rfl, ?_, ⟨k, by omega, hwc.1 hw⟩, ?_⟩
        · simp [hkey]
        · intro e2 he2 hes r2 hr2
          rcases List.mem_append.1 he2 with he2 | he2
          · exact Or.inr (exists_reading_mono (by omega) (hopen e2 he2 hes r2 hr2))
          · simp only [List.mem_singleton] at he2
            subst he2
            exact Or.inl (lexLe_refl _)
      · left
        have hw2 : windowClosed env (clock k) r0.Start (tl.length + 1) = false := by
          simpa using hw
        refine ⟨?_, ?_, ?_, ?_⟩
        · simp [bestStep, hid, hh, hw2]
        · simp [bestStep, hid, hh, hw2, hs]
        · have hb1 : (bestStep env self (clock k) st id r0 (tl.length + 1)).best =
              if st.best = none then some r0 else st.best := by
            simp [bestStep, hid, hh, hw2]
          rw [hb1, hbest]
          unfold fallbackRound
          rw [List.find?_append]
          cases hf : List.find? (fun e => decide (e.1 ≠ self)) vis with
          | none => simp [hid, hfirst]
          | some e0 =>
            have hm := List.mem_of_find?_eq_some hf
            have := hne e0 hm
            simp [this]
        · intro e he hes r hr
          rcases List.mem_append.1 he with he | he
          · exact exists_reading_mono (by omega) (hopen e he hes r hr)
          · simp only [List.mem_singleton] at he
            subst he
            rw [hfirst] at hr
            simp only [Option.some.injEq] at hr
            subst hr
            refine ⟨k, by omega, ?_⟩
            have : ¬ projectedEnd env (id, rounds) r0 ≤ clock k := fun hle => hw (hwc.2 hle)
            omega
  · have hh : st.height = (candKey env e).1 := by rw [← hk3]
    have hs : st.start = (candKey env e).2 := by rw [← hk3]
    right
    by_cases hc : (id = self ∨ tl.length + 1 < st.height) ∨
        windowClosed env (clock k) r0.Start (tl.length + 1) = false ∨
        ¬ (tl.length + 1 > st.height ∨ r0.Start > st.start)
    · rw [bestStep_keep env self (clock k) st id r0 r (tl.length + 1) hbest hc]
      refine ⟨e, List.mem_append_left _ he, r, hne_e, hfr, hbest, hk3,
        exists_reading_mono hk2 hclosed, ?_⟩
      intro e2 he2 hes r2 hr2
      rcases List.mem_append.1 he2 with he2 | he2
      · rcases hmax e2 he2 hes r2 hr2 with hm | hm
        · exact Or.inl hm
        · exact Or.inr (exists_reading_mono hk2 hm)
      · simp only [List.mem_singleton] at he2
        subst he2
        rw [hfirst] at hr2
        simp only [Option.some.injEq] at hr2
        subst hr2
        by_cases hskip : id = self ∨ tl.length + 1 < st.height
        · left
          rw [hkey]
          unfold lexLe
          simp only
          rcases hskip with hskip | hskip
          · exact absurd hskip hes
          · omega
        · rw [if_neg hskip]
          rcases hc with hc | hc | hc
          · exact absurd hc hskip
          · right
            refine ⟨k, by omega, ?_⟩
            have : ¬ projectedEnd env (id, rounds) r0 ≤ clock k := by
              intro hle
              rw [hwc.2 hle] at hc
              exact absurd hc (by simp)
            omega
          · left
            rw [hkey]
            unfold lexLe
            simp only
            simp only [not_or] at hskip
            omega
    · simp only [not_or, not_not, Bool.not_eq_false] at hc
      obtain ⟨⟨hid, hlt⟩, hw, hgt⟩ := hc
      have hgt2 : st.height < tl.length + 1 ∨ st.start < r0.Start := by omega
      have hnskip : ¬ (id = self ∨ tl.length + 1 < st.height) := by
        simp only [not_or]
        exact ⟨hid, hlt⟩
      rw [if_neg hnskip]
      have hst : bestStep env self (clock k) st id r0 (tl.length + 1) =
          { best := some r0, start := r0.Start, height := tl.length + 1 } := by
        simp [bestStep, hid, hlt, hw, hgt2]
      rw [hst]
      refine ⟨(id, rounds), by simp, r0, hid, hfirst, rfl, ?_, ⟨k, by omega, hwc.1 hw⟩, ?_⟩
      · simp [hkey]
      · intro e2 he2 hes r2 hr2
        rcases List.mem_append.1 he2 with he2 | he2
        · rcases hmax e2 he2 hes r2 hr2 with hm | hm
          · left
            refine lexLe_trans hm ?_
            rw [hkey]
            unfold lexLe
            simp only
            omega
          · exact Or.inr (exists_reading_mono (by omega) hm)
        · simp only [List.mem_singleton] at he2
          subst he2
          exact Or.inl (lexLe_refl _)

theorem bestLoop_inv (env : Env) (self : Nat) (clock : Nat → Nat) :
    ∀ (hist vis : RoundHistoryMap) (k : Nat) (st st2 : BestState),
      BestInv env self clock vis k st → (bestLoop env self clock k st hist).1 = some st2 →
      ∃ k2, BestInv env self clock (vis ++ hist) k2 st2 := by
  intro hist
  induction hist with
  | nil =>
    intro vis k st st2 h hr
    simp only [bestLoop, Option.some.injEq] at hr
    subst hr
    exact ⟨k, by simpa using h⟩
  | cons e rest ih =>
    intro vis k st st2 h hr
    obtain ⟨id, rounds⟩ := e
    cases htrim : trimRounds env rounds with
    | nil => simp [bestLoop, htrim] at hr
    | cons r0 tl =>
      simp only [bestLoop, htrim] at hr
      obtain ⟨k2, hk2⟩ := ih (vis ++ [(id, rounds)]) _ _ st2
        (bestStep_inv env self clock vis k st id rounds r0 tl htrim h) hr
      exact ⟨k2, by simpa using hk2⟩

theorem bestLoop_returns (env : Env) (self : Nat) (clock : Nat → Nat) :
    ∀ (hist : RoundHistoryMap) (k : Nat) (st : BestState),
      (∀ e ∈ hist, trimRounds env e.2 ≠ []) →
      ∃ st2, (bestLoop env self clock k st hist).1 = some st2 := by
  intro hist
  induction hist with
  | nil => intro k st _; exact ⟨st, rfl⟩
  | cons e rest ih =>
    intro k st hne
    obtain ⟨id, rounds⟩ := e
    cases htrim : trimRounds env rounds with
    | nil => exact absurd htrim (hne (id, rounds) (by simp))
    | cons r0 tl =>
      obtain ⟨st2, h2⟩ := ih
        (if id = self ∨ (r0 :: tl).length < st.height then k else k + 1)
        (bestStep env self (clock k) st id r0 (r0 :: tl).length)
        (fun e he => hne e (List.mem_cons_of_mem _ he))
      exact ⟨st2, by simp only [bestLoop, htrim]; exact h2⟩

theorem trimRounds_ne_nil (env : Env) (rounds : List FinalRound)
    (hthr : 0 < env.SnapshotReferenceThreshold) (hne : rounds ≠ []) :
    trimRounds env rounds ≠ [] := by
  unfold trimRounds
  split_ifs with h
  · intro hd
    have := congrArg List.length hd
    simp at this
    omega
  · exact hne

theorem bestInv_init (env : Env) (self : Nat) (clock : Nat → Nat) :
    BestInv env self clock [] 0 { best := none, start := 0, height := 0 } := by
  refine ⟨by simp, by simp, Or.inl ⟨rfl, rfl, by simp [fallbackRound], by simp⟩⟩

theorem bestInv_final (env : Env) (self : Nat) (clock : Nat → Nat) (hist : RoundHistoryMap)
    (st : BestState)
    (hst : (bestLoop env self clock 0 { best := none, start := 0, height := 0 } hist).1 =
      some st) :
    BestInv env self clock hist hist.length st := by
  obtain ⟨k2, hk, hne, hinv⟩ :=
    bestLoop_inv env self clock hist [] 0 _ st (bestInv_init env self clock) hst
  simp only [List.nil_append] at hk hne hinv
  refine ⟨le_refl _, hne, ?_⟩
  rcases hinv with ⟨hh, hs, hb, hopen⟩ | ⟨e, he, r, hes, hfr, hb, hkey, hcl, hmax⟩
  · exact Or.inl ⟨hh, hs, hb, fun e he hes r hr => exists_reading_mono hk (hopen e he hes r hr)⟩
  · refine Or.inr ⟨e, he, r, hes, hfr, hb, hkey, exists_reading_mono hk hcl, ?_⟩
    intro e2 he2 hes2 r2 hr2
    rcases hmax e2 he2 hes2 r2 hr2 with hm | hm
    · exact Or.inl hm
    · exact Or.inr (exists_reading_mono hk hm)

theorem u64_sum_of_lt (a b : Nat) (h : a + b < 2 ^ 64) : u64 (a + u64 b) = a + b := by
  unfold u64
  have hb : b % 2 ^ 64 = b := Nat.mod_eq_of_lt (by omega)
  rw [hb]
  exact Nat.mod_eq_of_lt h

/-- C9 (counterexample): with the local node 0, a clock that reads 0 and a single other
node whose only round starts at 100, `determinBestRound` returns that round although
100 + 10 × 1 is after the time 0. -/
theorem determinBestRound_returns_open_window :
    (determinBestRound sampleEnv 0 (fun _ => 0) [(1, [⟨1, 0, 100, 7⟩])]).1 =
        some (some ⟨1, 0, 100, 7⟩) ∧
      ¬ ((⟨1, 0, 100, 7⟩ : FinalRound).Start + sampleEnv.SnapshotRoundGap * 1 ≤ 0) := by
  decide

/-- C9 (amended): every round `determinBestRound` returns is the first retained round of
the history of a node other than the local one. Either the loop found its window
closed at one of its clock readings: Start + SnapshotRoundGap × retained length, as a
`uint64` sum, is at most that reading (and so is the plain sum when it does not wrap
around). Or the round is the fallback taken from the first visited node other than the
local one, and the window of every such node was still open at one of the readings. -/
theorem determinBestRound_returned_round (env : Env) (self : Nat) (clock : Nat → Nat)
    (hist : RoundHistoryMap) (r : FinalRound)
    (h : (determinBestRound env self clock hist).1 = some (some r)) :
    ∃ e ∈ hist, e.1 ≠ self ∧ firstRound env e = some r ∧
      ((∃ j, j < hist.length ∧
          u64 (r.Start + u64 (env.SnapshotRoundGap * (trimRounds env e.2).length)) ≤ clock j ∧
          (r.Start + env.SnapshotRoundGap * (trimRounds env e.2).length < 2 ^ 64 →
            r.Start + env.SnapshotRoundGap * (trimRounds env e.2).length ≤ clock j)) ∨
        (fallbackRound env self hist = some r ∧
          ∀ e2 ∈ hist, e2.1 ≠ self → ∀ r2, firstRound env e2 = some r2 →
            ∃ j, j < hist.length ∧
              clock j <
                u64 (r2.Start + u64 (env.SnapshotRoundGap * (trimRounds env e2.2).length)))) := by
  unfold determinBestRound at h
  cases hst : (bestLoop env self clock 0 { best := none, start := 0, height := 0 } hist).1 with
  | none => simp [hst] at h
  | some st =>
  have hb : st.best = some r := by simpa [hst] using h
  obtain ⟨_, _, hinv⟩ := bestInv_final env self clock hist st hst
  rcases hinv with ⟨_, _, hbest, hopen⟩ | ⟨e, he, r1, hes, hfr, hbest, _, hcl, _⟩
  · rw [hb] at hbest
    have hf := hbest.symm
    unfold fallbackRound at hf
    cases hfind : List.find? (fun e => decide (e.1 ≠ self)) hist with
    | none =>
      rw [hfind] at hf
      simp at hf
    | some e0 =>
      rw [hfind] at hf
      have hp := List.find?_some hfind
      exact ⟨e0, List.mem_of_find?_eq_some hfind, by simpa using hp, by simpa using hf,
        Or.inr ⟨hbest.symm, hopen⟩⟩
  · rw [hb] at hbest
    simp only [Option.some.injEq] at hbest
    subst hbest
    obtain ⟨j, hj, hle⟩ := hcl
    refine ⟨e, he, hes, hfr, Or.inl ⟨j, hj, hle, ?_⟩⟩
    intro hfit
    unfold projectedEnd at hle
    rw [u64_sum_of_lt _ _ hfit] at hle
    exact hle

/-- C9 (amended), at the sample environment with a clock that advances from 100 over 104
to 110: the returned round of node 2 was found closed at the third reading. -/
theorem determinBestRound_returned_round_witness :
    ∃ e ∈ threeHistories, e.1 ≠ 0 ∧ firstRound sampleEnv e = some ⟨2, 0, 100, 24⟩ ∧
      ((∃ j, j < threeHistories.length ∧
          u64 ((⟨2, 0, 100, 24⟩ : FinalRound).Start +
            u64 (sampleEnv.SnapshotRoundGap * (trimRounds sampleEnv e.2).length)) ≤
              advancingClock j ∧
          ((⟨2, 0, 100, 24⟩ : FinalRound).Start +
              sampleEnv.SnapshotRoundGap * (trimRounds sampleEnv e.2).length < 2 ^ 64 →
            (⟨2, 0, 100, 24⟩ : FinalRound).Start +
              sampleEnv.SnapshotRoundGap * (trimRounds sampleEnv e.2).length ≤
                advancingClock j)) ∨
        (fallbackRound sampleEnv 0 threeHistories = some ⟨2, 0, 100, 24⟩ ∧
          ∀ e2 ∈ threeHistories, e2.1 ≠ 0 → ∀ r2, firstRound sampleEnv e2 = some r2 →
            ∃ j, j < threeHistories.length ∧
              advancingClock j <
                u64 (r2.Start +
                  u64 (sampleEnv.SnapshotRoundGap * (trimRounds sampleEnv e2.2).length)))) :=
  determinBestRound_returned_round sampleEnv 0 advancingClock threeHistories ⟨2, 0, 100, 24⟩
    (by decide)

/-- C10 (counterexample): while the clock advances from 100 over 104 to 110, the loop
finds node 1 (two rounds from 85, due at 105) open at 100, node 3 closed at 104 and
node 2 (one round from 100, due at 110) closed at 110, and returns the round of node 2.
At no single time is node 2 eligible and lexicographically maximal among the eligible
nodes: from 110 on node 1 is eligible with the longer history. -/
theorem determinBestRound_not_max_at_one_time :
    (determinBestRound sampleEnv 0 advancingClock threeHistories).1 =
        some (some ⟨2, 0, 100, 24⟩) ∧
      ∀ now : Nat,
        ¬ ((⟨2, 0, 100, 24⟩ : FinalRound).Start + sampleEnv.SnapshotRoundGap * 1 ≤ now ∧
          ((⟨1, 0, 85, 21⟩ : FinalRound).Start + sampleEnv.SnapshotRoundGap * 2 ≤ now →
            lexLe (candKey sampleEnv (1, [⟨1, 0, 85, 21⟩, ⟨1, 1, 95, 22⟩]))
              (candKey sampleEnv (2, [⟨2, 0, 100, 24⟩])))) := by
  refine ⟨by decide, ?_⟩
  rintro now ⟨h1, h2⟩
  have h3 : (⟨1, 0, 85, 21⟩ : FinalRound).Start + sampleEnv.SnapshotRoundGap * 2 ≤ now := by
    have : sampleEnv.SnapshotRoundGap = 10 := rfl
    simp only [this] at h1 ⊢
    omega
  have h4 := h2 h3
  have hk1 : candKey sampleEnv (1, [⟨1, 0, 85, 21⟩, ⟨1, 1, 95, 22⟩]) = (2, 85) := by decide
  have hk2 : candKey sampleEnv (2, [⟨2, 0, 100, 24⟩]) = (1, 100) := by decide
  rw [hk1, hk2] at h4
  unfold lexLe at h4
  simp at h4

/-- C10 (amended): when every history is non-empty, the window size is positive and the
window of some node other than the local one is closed at every clock reading of the
call, `determinBestRound` returns the first retained round of a node other than the
local one whose window the loop found closed at one of its readings, and whose pair
(retained history length, Start) is lexicographically at least the pair of every
other node whose window is closed at every reading, in whatever order the entries are
visited. Closed means: Start + SnapshotRoundGap × retained length, as a `uint64` sum,
is at most the reading. -/
theorem determinBestRound_picks_lex_max (env : Env) (self : Nat) (clock : Nat → Nat)
    (hist : RoundHistoryMap) (hthr : 0 < env.SnapshotReferenceThreshold)
    (hne : ∀ e ∈ hist, e.2 ≠ [])
    (hex : ∃ e ∈ hist, ∃ r, e.1 ≠ self ∧ firstRound env e = some r ∧
      ∀ j, j < hist.length →
        u64 (r.Start + u64 (env.SnapshotRoundGap * (trimRounds env e.2).length)) ≤ clock j) :
    ∃ e ∈ hist, ∃ r, e.1 ≠ self ∧ firstRound env e = some r ∧
      (∃ j, j < hist.length ∧
        u64 (r.Start + u64 (env.SnapshotRoundGap * (trimRounds env e.2).length)) ≤ clock j) ∧
      (determinBestRound env self clock hist).1 = some (some r) ∧
      ∀ e2 ∈ hist, e2.1 ≠ self → ∀ r2, firstRound env e2 = some r2 →
        (∀ j, j < hist.length →
          u64 (r2.Start + u64 (env.SnapshotRoundGap * (trimRounds env e2.2).length)) ≤
            clock j) →
        lexLe (candKey env e2) (candKey env e) := by
  obtain ⟨st, hst⟩ := bestLoop_returns env self clock hist 0
    { best := none, start := 0, height := 0 }
    (fun e he => trimRounds_ne_nil env e.2 hthr (hne e he))
  obtain ⟨_, _, hinv⟩ := bestInv_final env self clock hist st hst
  rcases hinv with ⟨_, _, _, hopen⟩ | ⟨e, he, r, hes, hfr, hbest, _, hcl, hmax⟩
  · obtain ⟨e, he, r, hes, hfr, hall⟩ := hex
    obtain ⟨j, hj, hlt⟩ := hopen e he hes r hfr
    have := hall j hj
    unfold projectedEnd at hlt
    omega
  · refine ⟨e, he, r, hes, hfr, hcl, ?_, ?_⟩
    · unfold determinBestRound
      simp [hst, hbest]
    · intro e2 he2 hes2 r2 hr2 hall
      rcases hmax e2 he2 hes2 r2 hr2 with hm | ⟨j, hj, hlt⟩
      · exact hm
      · have := hall j hj
        unfold projectedEnd at hlt
        omega

/-- C10 (amended), at the sample environment with a clock that reads 100 throughout: of
two other nodes with closed windows, the one with the longer history is chosen. -/
theorem determinBestRound_picks_lex_max_witness :
    ∃ e ∈ [((1 : CryptoHash), [(⟨1, 0, 5, 7⟩ : FinalRound)]),
        (2, [⟨2, 0, 3, 8⟩, ⟨2, 1, 9, 9⟩])],
      ∃ r, e.1 ≠ 0 ∧ firstRound sampleEnv e = some r ∧
      (∃ j, j < [((1 : CryptoHash), [(⟨1, 0, 5, 7⟩ : FinalRound)]),
            (2, [⟨2, 0, 3, 8⟩, ⟨2, 1, 9, 9⟩])].length ∧
        u64 (r.Start + u64 (sampleEnv.SnapshotRoundGap * (trimRounds sampleEnv e.2).length)) ≤
          (fun _ => 100) j) ∧
      (determinBestRound sampleEnv 0 (fun _ => 100)
        [(1, [⟨1, 0, 5, 7⟩]), (2, [⟨2, 0, 3, 8⟩, ⟨2, 1, 9, 9⟩])]).1 = some (some r) ∧
      ∀ e2 ∈ [((1 : CryptoHash), [(⟨1, 0, 5, 7⟩ : FinalRound)]),
          (2, [⟨2, 0, 3, 8⟩, ⟨2, 1, 9, 9⟩])],
        e2.1 ≠ 0 → ∀ r2, firstRound sampleEnv e2 = some r2 →
        (∀ j, j < [((1 : CryptoHash), [(⟨1, 0, 5, 7⟩ : FinalRound)]),
              (2, [⟨2, 0, 3, 8⟩, ⟨2, 1, 9, 9⟩])].length →
          u64 (r2.Start +
              u64 (sampleEnv.SnapshotRoundGap * (trimRounds sampleEnv e2.2).length)) ≤
            (fun _ => 100) j) →
        lexLe (candKey sampleEnv e2) (candKey sampleEnv e) :=
  determinBestRound_picks_lex_max sampleEnv 0 (fun _ => 100)
    [(1, [⟨1, 0, 5, 7⟩]), (2, [⟨2, 0, 3, 8⟩, ⟨2, 1, 9, 9⟩])] (by decide) (by decide)
    ⟨(1, [⟨1, 0, 5, 7⟩]), by decide, ⟨1, 0, 5, 7⟩, by decide, by decide,
      fun _ _ =>
        (by decide : u64 ((⟨1, 0, 5, 7⟩ : FinalRound).Start +
          u64 (sampleEnv.SnapshotRoundGap *
            (trimRounds sampleEnv ((1 : CryptoHash), [(⟨1, 0, 5, 7⟩ : FinalRound)]).2).length)) ≤
              100)⟩


/-! ## Theorems: the merge of `collectSelfSignatures` -/

theorem mergeLoop_eq (str : Signature → String) :
    ∀ (S : List Signature) (filter : List String) (osigs : List Signature),
      mergeLoop str filter osigs S = osigs ++ freshSigs str filter S := by
  intro S
  induction S with
  | nil => intro filter osigs; simp [mergeLoop, freshSigs]
  | cons sig rest ih =>
    intro filter osigs
    by_cases h : str sig ∈ filter
    · simp [mergeLoop, freshSigs, h, ih]
    · simp [mergeLoop, freshSigs, h, ih]

theorem mergeSignatures_eq (str : Signature → String) (P S : List Signature) :
    mergeSignatures str P S = P ++ freshSigs str (P.map str) S :=
  mergeLoop_eq str S (P.map str) P

theorem freshSigs_congr (str : Signature → String) :
    ∀ (S : List Signature) (f g : List String), (∀ k, k ∈ f ↔ k ∈ g) →
      freshSigs str f S = freshSigs str g S := by
  intro S
  induction S with
  | nil => intro f g _; rfl
  | cons sig rest ih =>
    intro f g hfg
    by_cases h : str sig ∈ f
    · have hg : str sig ∈ g := (hfg _).1 h
      simp [freshSigs, h, hg, ih f g hfg]
    · have hg : str sig ∉ g := fun hg => h ((hfg _).2 hg)
      have := ih (str sig :: f) (str sig :: g) (by intro k; simp [hfg k])
      simp [freshSigs, h, hg, this]

theorem mem_freshSigs (str : Signature → String) :
    ∀ (S : List Signature) (f : List String) (x : Signature),
      x ∈ freshSigs str f S → x ∈ S ∧ str x ∉ f := by
  intro S
  induction S with
  | nil => intro f x hx; simp [freshSigs] at hx
  | cons sig rest ih =>
    intro f x hx
    by_cases h : str sig ∈ f
    · simp only [freshSigs, h, if_true] at hx
      have := ih f x hx
      exact ⟨List.mem_cons_of_mem _ this.1, this.2⟩
    · simp only [freshSigs, h, if_false, List.mem_cons] at hx
      rcases hx with hx | hx
      · subst hx
        exact ⟨by simp, h⟩
      · have := ih (str sig :: f) x hx
        exact ⟨List.mem_cons_of_mem _ this.1, fun hf => this.2 (List.mem_cons_of_mem _ hf)⟩

theorem freshSigs_keys_nodup (str : Signature → String) :
    ∀ (S : List Signature) (f : List String), ((freshSigs str f S).map str).Nodup := by
  intro S
  induction S with
  | nil => intro f; simp [freshSigs]
  | cons sig rest ih =>
    intro f
    by_cases h : str sig ∈ f
    · simp only [freshSigs, h, if_true]
      exact ih f
    · simp only [freshSigs, h, if_false, List.map_cons, List.nodup_cons]
      refine ⟨?_, ih _⟩
      intro hm
      obtain ⟨y, hy, hyk⟩ := List.mem_map.1 hm
      have := (mem_freshSigs str rest (str sig :: f) y hy).2
      exact this (by simp [hyk])

theorem key_mem_freshSigs (str : Signature → String) :
    ∀ (S : List Signature) (f : List String) (x : Signature),
      x ∈ S → str x ∉ f → str x ∈ (freshSigs str f S).map str := by
  intro S
  induction S with
  | nil => intro f x hx; simp at hx
  | cons sig rest ih =>
    intro f x hx hk
    by_cases hsx : str sig = str x
    · have h : str sig ∉ f := by rw [hsx]; exact hk
      simp only [freshSigs, h, if_false, List.map_cons, List.mem_cons]
      exact Or.inl hsx.symm
    · have hx2 : x ∈ rest := by
        rcases List.mem_cons.1 hx with hx | hx
        · exact absurd (congrArg str hx).symm hsx
        · exact hx
      by_cases h : str sig ∈ f
      · simp only [freshSigs, h, if_true]
        exact ih f x hx2 hk
      · simp only [freshSigs, h, if_false, List.map_cons, List.mem_cons]
        right
        refine ih _ x hx2 ?_
        simp only [List.mem_cons, not_or]
        exact ⟨fun e => hsx e.symm, hk⟩

theorem mem_freshSigs_of_injective (str : Signature → String)
    (hinj : Function.Injective str) (S : List Signature) (f : List String) (x : Signature)
    (hx : x ∈ S) (hk : str x ∉ f) : x ∈ freshSigs str f S := by
  obtain ⟨y, hy, hyx⟩ := List.mem_map.1 (key_mem_freshSigs str S f x hx hk)
  rw [← hinj hyx]
  exact hy

theorem key_mem_freshSigs_iff (str : Signature → String) (S : List Signature)
    (f : List String) (k : String) :
    k ∈ (freshSigs str f S).map str ↔ k ∈ S.map str ∧ k ∉ f := by
  constructor
  · intro h
    obtain ⟨x, hx, rfl⟩ := List.mem_map.1 h
    have := mem_freshSigs str S f x hx
    exact ⟨List.mem_map.2 ⟨x, this.1, rfl⟩, this.2⟩
  · rintro ⟨h, hk⟩
    obtain ⟨x, hx, rfl⟩ := List.mem_map.1 h
    exact key_mem_freshSigs str S f x hx hk

theorem merge_twice_keys (str : Signature → String) (P A B : List Signature) :
    ∃ t, mergeSignatures str (mergeSignatures str P A) B = P ++ t ∧
      (t.map str).Nodup ∧
      ∀ k, k ∈ t.map str ↔ (k ∈ A.map str ∨ k ∈ B.map str) ∧ k ∉ P.map str := by
  refine ⟨freshSigs str (P.map str) A ++
    freshSigs str ((P ++ freshSigs str (P.map str) A).map str) B, ?_, ?_, ?_⟩
  · rw [mergeSignatures_eq str P A, mergeSignatures_eq, List.append_assoc]
  · rw [List.map_append, List.nodup_append]
    refine ⟨freshSigs_keys_nodup str A _, freshSigs_keys_nodup str B _, ?_⟩
    intro k hk1 hk2
    have := ((key_mem_freshSigs_iff str B _ k).1 hk2).2
    exact this (by rw [List.map_append]; exact List.mem_append_right _ hk1)
  · intro k
    rw [List.map_append, List.mem_append, key_mem_freshSigs_iff, key_mem_freshSigs_iff,
      List.map_append, List.mem_append, key_mem_freshSigs_iff]
    tauto

theorem perm_of_keys_perm (str : Signature → String) (hinj : Function.Injective str)
    (l1 l2 : List Signature) (h1 : (l1.map str).Nodup)
    (h : (l1.map str).Perm (l2.map str)) : l1.Perm l2 := by
  have h2 : (l2.map str).Nodup := h.nodup_iff.1 h1
  refine (List.perm_ext_iff_of_nodup (List.Nodup.of_map str h1) (List.Nodup.of_map str h2)).2 ?_
  intro x
  rw [← List.mem_map_of_injective hinj, ← List.mem_map_of_injective hinj (l := l2)]
  exact h.mem_iff

theorem merge_order_perm (str : Signature → String) (P A B : List Signature) :
    ((mergeSignatures str (mergeSignatures str P A) B).map str).Perm
        ((mergeSignatures str (mergeSignatures str P B) A).map str) ∧
      (Function.Injective str →
        (mergeSignatures str (mergeSignatures str P A) B).Perm
          (mergeSignatures str (mergeSignatures str P B) A)) := by
  obtain ⟨t1, e1, n1, m1⟩ := merge_twice_keys str P A B
  obtain ⟨t2, e2, n2, m2⟩ := merge_twice_keys str P B A
  have hk : (t1.map str).Perm (t2.map str) := by
    refine (List.perm_ext_iff_of_nodup n1 n2).2 ?_
    intro k
    rw [m1, m2]
    tauto
  rw [e1, e2]
  refine ⟨?_, fun hinj => ?_⟩
  · rw [List.map_append, List.map_append]
    exact List.Perm.append_left _ hk
  · exact List.Perm.append_left _ (perm_of_keys_perm str hinj t1 t2 n1 hk)

/-! ## Theorems: `collectSelfSignatures` -/

theorem floodSnapshot_calls (env : Env) (s : Snapshot) (mode : Nat) :
    ∀ (peers : List CryptoHash), ∀ c ∈ (floodSnapshot env s mode peers).1,
      ∃ p, c = Call.SendSnapshotMessage p s mode := by
  intro peers
  induction peers with
  | nil => intro c hc; simp [floodSnapshot] at hc
  | cons p ps ih =>
    intro c hc
    unfold floodSnapshot at hc
    cases hsend : env.SendSnapshotMessage p s mode with
    | some e =>
      simp only [hsend, List.mem_singleton] at hc
      exact ⟨p, hc⟩
    | none =>
      simp only [hsend, List.mem_cons] at hc
      rcases hc with hc | hc
      · exact ⟨p, hc⟩
      · exact ih c hc

theorem floodSnapshot_count_next (env : Env) (s : Snapshot) (mode : Nat)
    (peers : List CryptoHash) : (floodSnapshot env s mode peers).1.count Call.Next = 0 := by
  rw [List.count_eq_zero]
  intro h
  obtain ⟨p, hp⟩ := floodSnapshot_calls env s mode peers _ h
  cases hp

theorem finalizeSnapshot_count_next (env : Env) (node : Node) (s : Snapshot)
    (cache : CacheRound) (osigs : List Signature) :
    (finalizeSnapshot env node s cache osigs).calls.count Call.Next = 1 := by
  unfold finalizeSnapshot
  dsimp only
  split
  · simp [List.count_cons]
  · split
    · simp [List.count_cons]
    · simp [List.count_cons, List.count_append, floodSnapshot_count_next]

theorem finalizeSnapshot_pool (env : Env) (node : Node) (s : Snapshot)
    (cache : CacheRound) (osigs : List Signature) :
    (finalizeSnapshot env node s cache osigs).node.SnapshotsPool = node.SnapshotsPool := by
  unfold finalizeSnapshot
  dsimp only
  split
  · rfl
  · split <;> rfl

theorem collect_of_reachesMerge (env : Env) (node : Node) (s : Snapshot)
    (h : reachesMerge env node s = true) :
    ∃ cache, node.Graph.CacheRound s.NodeId = some cache ∧
      collectSelfSignatures env node s =
        if quorate env node s = true then
          finalizeSnapshot env
            { node with
              SnapshotsPool := Function.update node.SnapshotsPool s.Hash
                (mergeSignatures env.sigString (node.SnapshotsPool s.Hash) s.Signatures) }
            s (env.ValidateSnapshot cache s false).2
            (mergeSignatures env.sigString (node.SnapshotsPool s.Hash) s.Signatures)
        else
          ⟨{ node with
              SnapshotsPool := Function.update node.SnapshotsPool s.Hash
                (mergeSignatures env.sigString (node.SnapshotsPool s.Hash) s.Signatures) },
            s, [], Outcome.returned none⟩ := by
  unfold reachesMerge at h
  cases hc : node.Graph.CacheRound s.NodeId with
  | none => simp [hc] at h
  | some cache =>
    simp only [hc, Bool.and_eq_true, decide_eq_true_eq] at h
    obtain ⟨⟨⟨h1, h2⟩, h3, h4⟩, h5, h6⟩ := h
    refine ⟨cache, rfl, ?_⟩
    have hc2 : node.Graph.CacheRound node.IdForNetwork = some cache := by
      rw [← h1]
      exact hc
    unfold collectSelfSignatures quorate
    simp only [h1, h2, h3, h4, h5, h6, hc2, ne_eq, not_true_eq_false, or_self, if_false,
      Bool.not_true, Bool.false_eq_true]
    split_ifs with ha hb hb
    · rw [hb] at ha
      exact absurd ha (by simp)
    · rfl
    · rfl
    · rw [Bool.not_eq_true] at hb
      rw [hb] at ha
      exact absurd ha (by simp)

theorem collect_pool_of_reachesMerge (env : Env) (node : Node) (s : Snapshot)
    (h : reachesMerge env node s = true) :
    (collectSelfSignatures env node s).node.SnapshotsPool s.Hash =
      mergeSignatures env.sigString (node.SnapshotsPool s.Hash) s.Signatures := by
  obtain ⟨cache, _, hrun⟩ := collect_of_reachesMerge env node s h
  rw [hrun]
  split_ifs
  · rw [finalizeSnapshot_pool]
    simp
  · simp

theorem queueSnapshotOrPanic_calls (env : Env) (node : Node) (s : Snapshot) (fin : Bool)
    (calls : List Call) :
    (queueSnapshotOrPanic env node s fin calls).calls =
      calls ++ [Call.QueueAppendSnapshot s fin] := by
  unfold queueSnapshotOrPanic
  split <;> rfl

theorem clearAndQueue_count_next (env : Env) (node : Node) (s : Snapshot) :
    (clearAndQueueSnapshotOrPanic env node s).calls.count Call.Next = 0 := by
  unfold clearAndQueueSnapshotOrPanic
  rw [queueSnapshotOrPanic_calls]
  simp [List.count_cons]

theorem collect_count_next_of_not_reaches (env : Env) (node : Node) (s : Snapshot)
    (h : reachesMerge env node s = false) :
    (collectSelfSignatures env node s).calls.count Call.Next = 0 := by
  by_cases hp : s.NodeId ≠ node.IdForNetwork ∨ s.Signatures.length ≠ 1
  · unfold collectSelfSignatures
    rw [if_pos hp]
    rfl
  by_cases hq : (node.SnapshotsPool s.Hash).length = 0 ∨ node.SignaturesPool s.Hash = none
  · unfold collectSelfSignatures
    rw [if_neg hp, if_pos hq]
    rfl
  cases hc : node.Graph.CacheRound s.NodeId with
  | none =>
    unfold collectSelfSignatures
    rw [if_neg hp, if_neg hq]
    simp [hc]
  | some cache =>
    unfold collectSelfSignatures
    rw [if_neg hp, if_neg hq]
    simp only [hc]
    by_cases h5 : s.RoundNumber < cache.Number
    · rw [if_pos h5]
      exact clearAndQueue_count_next env node s
    · rw [if_neg h5]
      by_cases h6 : (env.ValidateSnapshot cache s false).1 = true
      · exfalso
        have : reachesMerge env node s = true := by
          unfold reachesMerge
          simp only [not_or, not_not, ne_eq] at hp hq
          rw [hc]
          simp [hp.1, hp.2, hq.1, hq.2, h5, h6]
        rw [h] at this
        exact absurd this (by simp)
      · simp only [Bool.not_eq_true] at h6
        simp only [h6, Bool.not_false, if_true]
        exact clearAndQueue_count_next env node s

/-- C3: `collectSelfSignatures` calls `TopoCounter.Next` once when the call reaches the
merge and the merged set satisfies `verifyFinalization`, and not at all otherwise; when
the merged set is below the quorum the call returns nil, writes no snapshot and leaves
`Graph.CacheRound` and `CachePool` as they were. -/
theorem collectSelfSignatures_next_once (env : Env) (node : Node) (s : Snapshot) :
    (collectSelfSignatures env node s).calls.count Call.Next =
        (if (reachesMerge env node s && quorate env node s) = true then 1 else 0) ∧
      ((reachesMerge env node s && !quorate env node s) = true →
        (collectSelfSignatures env node s).outcome = Outcome.returned none ∧
        (∀ x topo, Call.WriteSnapshot x topo ∉ (collectSelfSignatures env node s).calls) ∧
        (collectSelfSignatures env node s).node.Graph.CacheRound = node.Graph.CacheRound ∧
        (collectSelfSignatures env node s).node.CachePool = node.CachePool ∧
        (collectSelfSignatures env node s).node.TopoCounter = node.TopoCounter) := by
  constructor
  · cases hr : reachesMerge env node s with
    | false => simpa using collect_count_next_of_not_reaches env node s hr
    | true =>
      obtain ⟨cache, _, hrun⟩ := collect_of_reachesMerge env node s hr
      rw [hrun]
      cases hq : quorate env node s with
      | false => simp
      | true => simpa using finalizeSnapshot_count_next env _ s _ _
  · intro h
    simp only [Bool.and_eq_true, Bool.not_eq_true'] at h
    obtain ⟨cache, _, hrun⟩ := collect_of_reachesMerge env node s h.1
    rw [hrun]
    simp [h.2]

/-- C3, at the sample environment: a second signature for a pool of one, with a quorum of
four, stays pending. -/
theorem collectSelfSignatures_next_once_witness :
    (reachesMerge sampleEnv (pendingNode [⟨1⟩]) (snapWith ⟨2⟩) &&
        !quorate sampleEnv (pendingNode [⟨1⟩]) (snapWith ⟨2⟩)) = true ∧
      (collectSelfSignatures sampleEnv (pendingNode [⟨1⟩]) (snapWith ⟨2⟩)).outcome =
        Outcome.returned none ∧
      (∀ x topo, Call.WriteSnapshot x topo ∉
        (collectSelfSignatures sampleEnv (pendingNode [⟨1⟩]) (snapWith ⟨2⟩)).calls) ∧
      (collectSelfSignatures sampleEnv (pendingNode [⟨1⟩]) (snapWith ⟨2⟩)).node.Graph.CacheRound =
        (pendingNode [⟨1⟩]).Graph.CacheRound ∧
      (collectSelfSignatures sampleEnv (pendingNode [⟨1⟩]) (snapWith ⟨2⟩)).node.CachePool =
        (pendingNode [⟨1⟩]).CachePool ∧
      (collectSelfSignatures sampleEnv (pendingNode [⟨1⟩]) (snapWith ⟨2⟩)).node.TopoCounter =
        (pendingNode [⟨1⟩]).TopoCounter :=
  ⟨by decide,
    (collectSelfSignatures_next_once sampleEnv (pendingNode [⟨1⟩]) (snapWith ⟨2⟩)).2 (by decide)⟩

theorem sampleEnv_sigString_injective : Function.Injective sampleEnv.sigString := by
  intro a b h
  have h1 : List.replicate a.raw 'a' = List.replicate b.raw 'a' := by
    have := congrArg String.data h
    simpa [sampleEnv] using this
  have h2 := congrArg List.length h1
  simp only [List.length_replicate] at h2
  cases a
  cases b
  simp only at h2
  rw [h2]

/-- C4 (counterexample): with the pending pool holding signature 1, delivering
signature 2 and then 3 leaves the pool 1, 2, 3, while delivering 3 and then 2 leaves
1, 3, 2: the two pools are not identical. -/
theorem collectSelfSignatures_merge_order_differs :
    (collectSelfSignatures sampleEnv
        (collectSelfSignatures sampleEnv (pendingNode [⟨1⟩]) (snapWith ⟨2⟩)).node
        (snapWith ⟨3⟩)).node.SnapshotsPool 9 = [⟨1⟩, ⟨2⟩, ⟨3⟩] ∧
      (collectSelfSignatures sampleEnv
        (collectSelfSignatures sampleEnv (pendingNode [⟨1⟩]) (snapWith ⟨3⟩)).node
        (snapWith ⟨2⟩)).node.SnapshotsPool 9 = [⟨1⟩, ⟨3⟩, ⟨2⟩] ∧
      (collectSelfSignatures sampleEnv
        (collectSelfSignatures sampleEnv (pendingNode [⟨1⟩]) (snapWith ⟨2⟩)).node
        (snapWith ⟨3⟩)).node.SnapshotsPool 9 ≠
      (collectSelfSignatures sampleEnv
        (collectSelfSignatures sampleEnv (pendingNode [⟨1⟩]) (snapWith ⟨3⟩)).node
        (snapWith ⟨2⟩)).node.SnapshotsPool 9 := by
  decide

/-- Without the merge being reached by all four calls the two orders need not agree:
under a round validation that rejects a hash the round already holds and a quorum of
two, the pool holding signature 1 ends as 1, 2 when signature 1 is delivered before
signature 2, and is cleared when signature 2, which finalizes, is delivered first. -/
theorem collectSelfSignatures_stale_second_delivery :
    (collectSelfSignatures strictEnv
        (collectSelfSignatures strictEnv (pendingNode [⟨1⟩]) (snapWith ⟨1⟩)).node
        (snapWith ⟨2⟩)).node.SnapshotsPool 9 = [⟨1⟩, ⟨2⟩] ∧
      (collectSelfSignatures strictEnv
        (collectSelfSignatures strictEnv (pendingNode [⟨1⟩]) (snapWith ⟨2⟩)).node
        (snapWith ⟨1⟩)).node.SnapshotsPool 9 = [] ∧
      reachesMerge strictEnv
        (collectSelfSignatures strictEnv (pendingNode [⟨1⟩]) (snapWith ⟨2⟩)).node
        (snapWith ⟨1⟩) = false := by
  decide

/-- C4 (amended): when two snapshots with the same hash are delivered in either order
and each of the four calls reaches the merge (the entry is pending and the round
validation accepts the snapshot), the two resulting pools hold the same signature keys,
each as often in one as in the other, possibly in a different order; when `String()`
is injective the pools themselves are permutations of each other. -/
theorem collectSelfSignatures_merge_order_perm (env : Env) (node : Node) (a b : Snapshot)
    (hab : a.Hash = b.Hash)
    (h1 : reachesMerge env node a = true)
    (h2 : reachesMerge env (collectSelfSignatures env node a).node b = true)
    (h3 : reachesMerge env node b = true)
    (h4 : reachesMerge env (collectSelfSignatures env node b).node a = true) :
    (((collectSelfSignatures env (collectSelfSignatures env node a).node b).node.SnapshotsPool
          a.Hash).map env.sigString).Perm
        (((collectSelfSignatures env (collectSelfSignatures env node b).node a).node.SnapshotsPool
          a.Hash).map env.sigString) ∧
      (Function.Injective env.sigString →
        ((collectSelfSignatures env (collectSelfSignatures env node a).node b).node.SnapshotsPool
            a.Hash).Perm
          ((collectSelfSignatures env (collectSelfSignatures env node b).node a).node.SnapshotsPool
            a.Hash)) := by
  have e1 := collect_pool_of_reachesMerge env node a h1
  have e2 := collect_pool_of_reachesMerge env _ b h2
  have e3 := collect_pool_of_reachesMerge env node b h3
  have e4 := collect_pool_of_reachesMerge env _ a h4
  rw [← hab] at e2 e3
  rw [e1] at e2
  rw [e3] at e4
  rw [e2, e4]
  exact merge_order_perm env.sigString (node.SnapshotsPool a.Hash) a.Signatures b.Signatures

/-- C4 (amended), at the sample environment: signatures 2 and 3 delivered in either
order to the pool holding signature 1. -/
theorem collectSelfSignatures_merge_order_perm_witness :
    (((collectSelfSignatures sampleEnv
          (collectSelfSignatures sampleEnv (pendingNode [⟨1⟩]) (snapWith ⟨2⟩)).node
          (snapWith ⟨3⟩)).node.SnapshotsPool (snapWith ⟨2⟩).Hash).map sampleEnv.sigString).Perm
        (((collectSelfSignatures sampleEnv
          (collectSelfSignatures sampleEnv (pendingNode [⟨1⟩]) (snapWith ⟨3⟩)).node
          (snapWith ⟨2⟩)).node.SnapshotsPool (snapWith ⟨2⟩).Hash).map sampleEnv.sigString) ∧
      (Function.Injective sampleEnv.sigString →
        ((collectSelfSignatures sampleEnv
            (collectSelfSignatures sampleEnv (pendingNode [⟨1⟩]) (snapWith ⟨2⟩)).node
            (snapWith ⟨3⟩)).node.SnapshotsPool (snapWith ⟨2⟩).Hash).Perm
          ((collectSelfSignatures sampleEnv
            (collectSelfSignatures sampleEnv (pendingNode [⟨1⟩]) (snapWith ⟨3⟩)).node
            (snapWith ⟨2⟩)).node.SnapshotsPool (snapWith ⟨2⟩).Hash)) :=
  collectSelfSignatures_merge_order_perm sampleEnv (pendingNode [⟨1⟩]) (snapWith ⟨2⟩)
    (snapWith ⟨3⟩) rfl (by decide) (by decide) (by decide) (by decide)

/-- C5: the pool a call stores when it reaches the merge is `mergeSignatures` of the
existing pool and the incoming signatures; and for every pool `P` and incoming list `S`
that result keeps `P` unchanged in front, contains every signature of `S` and none
outside `P` and `S`, holds exactly once each signature of `S` whose key is absent from
`P`, and is free of duplicates when `P` is. `String()` is taken to be injective. -/
theorem collectSelfSignatures_merge_is_union (env : Env) (node : Node) (s : Snapshot)
    (hinj : Function.Injective env.sigString) :
    (reachesMerge env node s = true →
        (collectSelfSignatures env node s).node.SnapshotsPool s.Hash =
          mergeSignatures env.sigString (node.SnapshotsPool s.Hash) s.Signatures) ∧
      ∀ P S : List Signature,
        (∃ t, mergeSignatures env.sigString P S = P ++ t) ∧
        (∀ x ∈ S, x ∈ mergeSignatures env.sigString P S) ∧
        (∀ x ∈ mergeSignatures env.sigString P S, x ∈ P ∨ x ∈ S) ∧
        (∀ x ∈ S, env.sigString x ∉ P.map env.sigString →
          (mergeSignatures env.sigString P S).count x = 1) ∧
        (P.Nodup → (mergeSignatures env.sigString P S).Nodup) := by
  refine ⟨collect_pool_of_reachesMerge env node s, ?_⟩
  intro P S
  have hfn : (freshSigs env.sigString (P.map env.sigString) S).Nodup :=
    List.Nodup.of_map _ (freshSigs_keys_nodup env.sigString S _)
  rw [mergeSignatures_eq]
  refine ⟨⟨_, rfl⟩, ?_, ?_, ?_, ?_⟩
  · intro x hx
    by_cases hk : env.sigString x ∈ P.map env.sigString
    · obtain ⟨y, hy, hyx⟩ := List.mem_map.1 hk
      rw [hinj hyx] at hy
      exact List.mem_append_left _ hy
    · exact List.mem_append_right _
        (mem_freshSigs_of_injective env.sigString hinj S _ x hx hk)
  · intro x hx
    rcases List.mem_append.1 hx with hx | hx
    · exact Or.inl hx
    · exact Or.inr (mem_freshSigs env.sigString S _ x hx).1
  · intro x hx hk
    have hxP : x ∉ P := fun hm => hk (List.mem_map.2 ⟨x, hm, rfl⟩)
    rw [List.count_append, List.count_eq_zero_of_not_mem hxP,
      List.count_eq_one_of_mem hfn (mem_freshSigs_of_injective env.sigString hinj S _ x hx hk)]
  · intro hP
    refine List.Nodup.append hP hfn ?_
    intro x hx1 hx2
    exact (mem_freshSigs env.sigString S _ x hx2).2 (List.mem_map.2 ⟨x, hx1, rfl⟩)

/-- C5, at the sample environment, whose `String()` is injective. -/
theorem collectSelfSignatures_merge_is_union_witness :
    (reachesMerge sampleEnv (pendingNode [⟨1⟩]) (snapWith ⟨2⟩) = true →
        (collectSelfSignatures sampleEnv (pendingNode [⟨1⟩]) (snapWith ⟨2⟩)).node.SnapshotsPool
            (snapWith ⟨2⟩).Hash =
          mergeSignatures sampleEnv.sigString ((pendingNode [⟨1⟩]).SnapshotsPool (snapWith ⟨2⟩).Hash)
            (snapWith ⟨2⟩).Signatures) ∧
      ∀ P S : List Signature,
        (∃ t, mergeSignatures sampleEnv.sigString P S = P ++ t) ∧
        (∀ x ∈ S, x ∈ mergeSignatures sampleEnv.sigString P S) ∧
        (∀ x ∈ mergeSignatures sampleEnv.sigString P S, x ∈ P ∨ x ∈ S) ∧
        (∀ x ∈ S, sampleEnv.sigString x ∉ P.map sampleEnv.sigString →
          (mergeSignatures sampleEnv.sigString P S).count x = 1) ∧
        (P.Nodup → (mergeSignatures sampleEnv.sigString P S).Nodup) :=
  collectSelfSignatures_merge_is_union sampleEnv (pendingNode [⟨1⟩]) (snapWith ⟨2⟩)
    sampleEnv_sigString_injective

/-! ## Theorems: `signSelfSnapshot` -/

theorem queueSnapshotOrPanic_not_signed (env : Env) (node : Node) (s : Snapshot)
    (fin : Bool) : ¬ (queueSnapshotOrPanic env node s fin []).signed := by
  rintro ⟨x, hx⟩
  rw [queueSnapshotOrPanic_calls] at hx
  simp at hx

theorem broadcastSigned_calls (env : Env) (s : Snapshot) (tx : SignedTransaction) :
    ∀ (peers : List CryptoHash), ∀ c ∈ (broadcastSigned env s tx peers).1,
      (∃ p, c = Call.SendTransactionMessage p tx) ∨ ∃ p, c = Call.SendSnapshotMessage p s 0 := by
  intro peers
  induction peers with
  | nil => intro c hc; simp [broadcastSigned] at hc
  | cons p ps ih =>
    intro c hc
    unfold broadcastSigned at hc
    split at hc
    · simp only [List.mem_singleton] at hc
      exact Or.inl ⟨p, hc⟩
    · split at hc
      · simp only [List.mem_cons, List.mem_singleton, List.not_mem_nil, or_false] at hc
        rcases hc with hc | hc
        · exact Or.inl ⟨p, hc⟩
        · exact Or.inr ⟨p, hc⟩
      · simp only [List.mem_cons] at hc
        rcases hc with hc | hc | hc
        · exact Or.inl ⟨p, hc⟩
        · exact Or.inr ⟨p, hc⟩
        · exact ih c hc

theorem finishSign_graph (env : Env) (node : Node) (s : Snapshot) (tx : SignedTransaction)
    (cache : CacheRound) (final : FinalRound) (calls : List Call) :
    (finishSign env node s tx cache final calls).node.Graph =
      { CacheRound := Function.update node.Graph.CacheRound s.NodeId
          (some { cache with Timestamp := s.Timestamp })
        FinalRound := Function.update node.Graph.FinalRound s.NodeId (some final)
        RoundHistory := histSet node.Graph.RoundHistory s.NodeId
          (histGet node.Graph.RoundHistory s.NodeId ++ [final]) } := by
  unfold finishSign
  dsimp only
  split <;> rfl

theorem finishSign_snap (env : Env) (node : Node) (s : Snapshot) (tx : SignedTransaction)
    (cache : CacheRound) (final : FinalRound) (calls : List Call) :
    (finishSign env node s tx cache final calls).snap.Timestamp = s.Timestamp ∧
      (finishSign env node s tx cache final calls).snap.RoundNumber = cache.Number ∧
      (finishSign env node s tx cache final calls).snap.References = cache.References ∧
      (finishSign env node s tx cache final calls).snap.NodeId = s.NodeId := by
  unfold finishSign
  dsimp only
  split <;> exact ⟨rfl, rfl, rfl, rfl⟩

theorem finishSign_pool (env : Env) (node : Node) (s : Snapshot) (tx : SignedTransaction)
    (cache : CacheRound) (final : FinalRound) (calls : List Call) :
    (finishSign env node s tx cache final calls).node.CachePool = node.CachePool ∨
      (finishSign env node s tx cache final calls).node.CachePool =
        node.CachePool ++ [(finishSign env node s tx cache final calls).snap] := by
  unfold finishSign
  dsimp only
  split
  · exact Or.inl rfl
  · exact Or.inr rfl

theorem finishSign_startNewRound_mem (env : Env) (node : Node) (s : Snapshot)
    (tx : SignedTransaction) (cache : CacheRound) (final : FinalRound) (calls : List Call)
    (id n : Nat) (refs : Option RoundLink) (st : Nat) :
    Call.StartNewRound id n refs st ∈ (finishSign env node s tx cache final calls).calls ↔
      Call.StartNewRound id n refs st ∈ calls := by
  have hb := broadcastSigned_calls env
  unfold finishSign
  dsimp only
  split
  · constructor
    · intro h
      simp only [List.mem_append, List.mem_cons] at h
      rcases h with h | h | h
      · exact h
      · cases h
      · rcases hb _ _ _ _ h with ⟨p, hp⟩ | ⟨p, hp⟩ <;> cases hp
    · intro h
      exact List.mem_append_left _ h
  · constructor
    · intro h
      simp only [List.mem_append, List.mem_cons] at h
      rcases h with h | h | h
      · exact h
      · cases h
      · rcases hb _ _ _ _ h with ⟨p, hp⟩ | ⟨p, hp⟩ <;> cases hp
    · intro h
      exact List.mem_append_left _ h

theorem finishSign_calls_sub (env : Env) (node : Node) (s : Snapshot)
    (tx : SignedTransaction) (cache : CacheRound) (final : FinalRound) (calls : List Call) :
    ∀ c ∈ calls, c ∈ (finishSign env node s tx cache final calls).calls := by
  intro c hc
  unfold finishSign
  dsimp only
  split <;> exact List.mem_append_left _ hc

theorem rotateRound_signed (env : Env) (clock : Clock) (node : Node) (s : Snapshot)
    (tx : SignedTransaction) (cache : CacheRound) (final : FinalRound)
    (h : (rotateRound env clock node s tx cache final).signed) :
    ∃ best,
      (determinBestRound env node.IdForNetwork clock.best node.Graph.RoundHistory).1 =
        some (some best) ∧
      best.NodeId ≠ final.NodeId ∧
      rotateRound env clock node s tx cache final =
        finishSign env (rotatedNode env clock node) s tx (rotatedCache env s cache best)
          (env.asFinal cache)
          [Call.StartNewRound s.NodeId (u64 ((env.asFinal cache).Number + 1))
            (some { Self := (env.asFinal cache).Hash, External := best.Hash })
            (env.asFinal cache).Start] := by
  unfold rotateRound at h ⊢
  dsimp only at h ⊢
  split at h
  · rename_i best hbest
    split at h
    · obtain ⟨x, hx⟩ := h
      simp at hx
    · rename_i hne
      split at h
      · obtain ⟨x, hx⟩ := h
        simp at hx
      · rename_i hstart
        refine ⟨best, hbest, hne, ?_⟩
        rw [if_neg hne]
        rfl
  · obtain ⟨x, hx⟩ := h
    simp at hx

theorem not_signed_of_calls_nil (node : Node) (s : Snapshot) (o : Outcome) :
    ¬ (Run.mk node s [] o).signed := by
  rintro ⟨x, hx⟩
  simp at hx

theorem signSelfSnapshot_signed (env : Env) (clock : Clock) (node : Node) (s : Snapshot)
    (tx : SignedTransaction) (h : (signSelfSnapshot env clock node s tx).signed) :
    ∃ cache final ts,
      s.NodeId = node.IdForNetwork ∧
      node.Graph.CacheRound s.NodeId = some cache ∧
      node.Graph.FinalRound s.NodeId = some final ∧
      stampLoop cache.Timestamp clock.stamps = some ts ∧
      ((ts < rotationBound env cache ∧
          signSelfSnapshot env clock node s tx =
            finishSign env
              { node with
                CachePool := (checkCacheCapability env clock.capability node.CachePool).2 }
              { s with Timestamp := ts } tx cache final []) ∨
        (rotationBound env cache ≤ ts ∧
          signSelfSnapshot env clock node s tx =
            rotateRound env clock
              { node with
                CachePool := (checkCacheCapability env clock.capability node.CachePool).2 }
              { s with Timestamp := ts } tx cache final)) := by
  by_cases hp : s.NodeId ≠ node.IdForNetwork ∨ s.Signatures.length ≠ 0 ∨ s.Timestamp ≠ 0
  · exfalso
    unfold signSelfSnapshot at h
    rw [if_pos hp] at h
    exact not_signed_of_calls_nil _ _ _ h
  have hid : s.NodeId = node.IdForNetwork := by
    by_contra hne
    exact hp (Or.inl hne)
  unfold signSelfSnapshot at h ⊢
  rw [if_neg hp] at h ⊢
  cases hc : node.Graph.CacheRound s.NodeId with
  | none =>
    rw [hc] at h
    exact absurd h (not_signed_of_calls_nil _ _ _)
  | some cache =>
    cases hf : node.Graph.FinalRound s.NodeId with
    | none =>
      rw [hc, hf] at h
      exact absurd h (not_signed_of_calls_nil _ _ _)
    | some final =>
      rw [hc, hf] at h
      dsimp only at h ⊢
      by_cases hcap : (!(checkCacheCapability env clock.capability node.CachePool).1) = true
      · rw [if_pos hcap] at h
        exact absurd h (queueSnapshotOrPanic_not_signed _ _ _ _)
      rw [if_neg hcap] at h ⊢
      by_cases hsync : (!env.CheckSync
          { node with
            CachePool := (checkCacheCapability env clock.capability node.CachePool).2 } &&
          cache.Snapshots.length == 0) = true
      · rw [if_pos hsync] at h
        exact absurd h (queueSnapshotOrPanic_not_signed _ _ _ _)
      rw [if_neg hsync] at h ⊢
      cases hst : stampLoop cache.Timestamp clock.stamps with
      | none =>
        rw [hst] at h
        exact absurd h (not_signed_of_calls_nil _ _ _)
      | some ts =>
        refine ⟨cache, final, ts, hid, rfl, rfl, hst, ?_⟩
        dsimp only
        by_cases hb : ts ≥ u64 ((env.Gap cache).1 + env.SnapshotRoundGap)
        · right
          rw [if_pos hb]
          exact ⟨hb, rfl⟩
        · left
          rw [if_neg hb]
          exact ⟨Nat.lt_of_not_ge hb, rfl⟩

theorem stampLoop_gt (cacheTimestamp : Nat) :
    ∀ (stamps : List Nat) (ts : Nat), stampLoop cacheTimestamp stamps = some ts →
      cacheTimestamp < ts := by
  intro stamps
  induction stamps with
  | nil => intro ts h; simp [stampLoop] at h
  | cons t rest ih =>
    intro ts h
    unfold stampLoop at h
    split_ifs at h with hgt
    · simp only [Option.some.injEq] at h
      rw [← h]
      exact hgt
    · exact ih ts h

theorem checkCacheCapability_perm (env : Env) (now : Nat) (pool : List Snapshot) :
    ((checkCacheCapability env now pool).2).Perm pool := by
  unfold checkCacheCapability
  split_ifs
  · exact List.Perm.refl _
  · dsimp only
    split
    · split_ifs <;> exact List.perm_insertionSort _ _
    · exact List.perm_insertionSort _ _

/-- C1 (the code at the failing input): the history of the local node holds round 0 and
the open round is round 1; a signing inside the round gap returns nil and leaves the
history with round 0 twice, which is not strictly increasing. -/
theorem signSelfSnapshot_repeats_final_round :
    consecutive (histGet (pendingNode []).Graph.RoundHistory 0) = true ∧
      (signSelfSnapshot sampleEnv clockInside (pendingNode []) shellSnapshot sampleTx).outcome =
        Outcome.returned none ∧
      histGet (signSelfSnapshot sampleEnv clockInside (pendingNode []) shellSnapshot
        sampleTx).node.Graph.RoundHistory 0 = [⟨0, 0, 10, 1000⟩, ⟨0, 0, 10, 1000⟩] ∧
      consecutive (histGet (signSelfSnapshot sampleEnv clockInside (pendingNode [])
        shellSnapshot sampleTx).node.Graph.RoundHistory 0) = false := by
  decide

/-- C6: when `signSelfSnapshot` signs a snapshot, the stamped timestamp is greater than
the timestamp `CacheRound[self]` had when the call began, and it is the timestamp of
`CacheRound[self]` after the call. -/
theorem signSelfSnapshot_timestamp (env : Env) (clock : Clock) (node : Node)
    (s : Snapshot) (tx : SignedTransaction)
    (h : (signSelfSnapshot env clock node s tx).signed) :
    ∃ cache cache2,
      node.Graph.CacheRound node.IdForNetwork = some cache ∧
      (signSelfSnapshot env clock node s tx).node.Graph.CacheRound node.IdForNetwork =
        some cache2 ∧
      cache.Timestamp < (signSelfSnapshot env clock node s tx).snap.Timestamp ∧
      cache2.Timestamp = (signSelfSnapshot env clock node s tx).snap.Timestamp ∧
      cache.Timestamp < cache2.Timestamp := by
  obtain ⟨cache, final, ts, hid, hc, hf, hst, hcase⟩ := signSelfSnapshot_signed env clock node s tx h
  have hgt := stampLoop_gt _ _ _ hst
  rw [hid] at hc
  rcases hcase with ⟨_, hrun⟩ | ⟨_, hrun⟩
  · refine ⟨cache, { cache with Timestamp := ts }, hc, ?_, ?_, ?_, hgt⟩
    · rw [hrun, finishSign_graph]
      dsimp only
      rw [hid]
      exact Function.update_same _ _ _
    · rw [hrun, (finishSign_snap _ _ _ _ _ _ _).1]
      exact hgt
    · rw [hrun, (finishSign_snap _ _ _ _ _ _ _).1]
  · rw [hrun] at h
    obtain ⟨best, _, _, hrot⟩ := rotateRound_signed _ _ _ _ _ _ _ h
    rw [hrot] at hrun
    refine ⟨cache, { rotatedCache env { s with Timestamp := ts } cache best with
      Timestamp := ts }, hc, ?_, ?_, ?_, hgt⟩
    · rw [hrun, finishSign_graph]
      dsimp only
      rw [hid]
      exact Function.update_same _ _ _
    · rw [hrun, (finishSign_snap _ _ _ _ _ _ _).1]
      exact hgt
    · rw [hrun, (finishSign_snap _ _ _ _ _ _ _).1]

/-- C6, at the sample environment: a signing inside the round gap. -/
theorem signSelfSnapshot_timestamp_witness :
    ∃ cache cache2,
      (pendingNode []).Graph.CacheRound (pendingNode []).IdForNetwork = some cache ∧
      (signSelfSnapshot sampleEnv clockInside (pendingNode []) shellSnapshot
        sampleTx).node.Graph.CacheRound (pendingNode []).IdForNetwork = some cache2 ∧
      cache.Timestamp < (signSelfSnapshot sampleEnv clockInside (pendingNode []) shellSnapshot
        sampleTx).snap.Timestamp ∧
      cache2.Timestamp = (signSelfSnapshot sampleEnv clockInside (pendingNode [])
        shellSnapshot sampleTx).snap.Timestamp ∧
      cache.Timestamp < cache2.Timestamp :=
  signSelfSnapshot_timestamp sampleEnv clockInside (pendingNode []) shellSnapshot sampleTx
    ⟨⟨0, 77, some ⟨1000, 2000⟩, 1, 55, [], 0⟩, by decide⟩

/-- C7: when `signSelfSnapshot` rotates the round and signs, the new `CacheRound[self]`
has the number `final.Number + 1` (a `uint64` sum) and the references
`{Self: final.Hash, External: best.Hash}`, where `final` is `cache.asFinal()` of the
previous cache round and `best` is what `determinBestRound` returned; `final` becomes
`FinalRound[self]`, the signed snapshot carries that number and those references, and
the one call of `StartNewRound` passes exactly these values and `final.Start`. -/
theorem signSelfSnapshot_rotation (env : Env) (clock : Clock) (node : Node)
    (s : Snapshot) (tx : SignedTransaction)
    (hs : (signSelfSnapshot env clock node s tx).signed)
    (hr : (signSelfSnapshot env clock node s tx).rotated) :
    ∃ cache best cache2,
      node.Graph.CacheRound node.IdForNetwork = some cache ∧
      (determinBestRound env node.IdForNetwork clock.best node.Graph.RoundHistory).1 =
        some (some best) ∧
      (signSelfSnapshot env clock node s tx).node.Graph.CacheRound node.IdForNetwork =
        some cache2 ∧
      cache2.Number = u64 ((env.asFinal cache).Number + 1) ∧
      ((env.asFinal cache).Number + 1 < 2 ^ 64 →
        cache2.Number = (env.asFinal cache).Number + 1) ∧
      cache2.References =
        some { Self := (env.asFinal cache).Hash, External := best.Hash } ∧
      (signSelfSnapshot env clock node s tx).node.Graph.FinalRound node.IdForNetwork =
        some (env.asFinal cache) ∧
      (signSelfSnapshot env clock node s tx).snap.RoundNumber = cache2.Number ∧
      (signSelfSnapshot env clock node s tx).snap.References = cache2.References ∧
      ∀ id n refs st,
        Call.StartNewRound id n refs st ∈ (signSelfSnapshot env clock node s tx).calls ↔
          (id = node.IdForNetwork ∧ n = cache2.Number ∧ refs = cache2.References ∧
            st = (env.asFinal cache).Start) := by
  obtain ⟨cache, final, ts, hid, hc, hf, hst, hcase⟩ :=
    signSelfSnapshot_signed env clock node s tx hs
  rw [hid] at hc
  rcases hcase with ⟨_, hrun⟩ | ⟨_, hrun⟩
  · exfalso
    obtain ⟨id, n, refs, st, hm⟩ := hr
    rw [hrun, finishSign_startNewRound_mem] at hm
    simp at hm
  · rw [hrun] at hs
    obtain ⟨best, hbest, _, hrot⟩ := rotateRound_signed _ _ _ _ _ _ _ hs
    rw [hrot] at hrun
    refine ⟨cache, best, { rotatedCache env { s with Timestamp := ts } cache best with
      Timestamp := ts }, hc, hbest, ?_, rfl, ?_, rfl, ?_, ?_, ?_, ?_⟩
    · rw [hrun, finishSign_graph]
      dsimp only
      rw [hid]
      exact Function.update_same _ _ _
    · intro hlt
      show u64 ((env.asFinal cache).Number + 1) = (env.asFinal cache).Number + 1
      exact Nat.mod_eq_of_lt hlt
    · rw [hrun, finishSign_graph]
      dsimp only
      rw [hid]
      exact Function.update_same _ _ _
    · rw [hrun, (finishSign_snap _ _ _ _ _ _ _).2.1]
    · rw [hrun, (finishSign_snap _ _ _ _ _ _ _).2.2.1]
    · intro id n refs st
      rw [hrun, finishSign_startNewRound_mem]
      simp only [List.mem_singleton, Call.StartNewRound.injEq]
      rw [hid]
      constructor
      · rintro ⟨h1, h2, h3, h4⟩
        exact ⟨h1, h2, h3, h4⟩
      · rintro ⟨h1, h2, h3, h4⟩
        exact ⟨h1, h2, h3, h4⟩

/-- C7, at the sample environment: a signing past the round gap opens round 2. -/
theorem signSelfSnapshot_rotation_witness :
    ∃ cache best cache2,
      (pendingNode []).Graph.CacheRound (pendingNode []).IdForNetwork = some cache ∧
      (determinBestRound sampleEnv (pendingNode []).IdForNetwork clockPast.best
        (pendingNode []).Graph.RoundHistory).1 = some (some best) ∧
      (signSelfSnapshot sampleEnv clockPast (pendingNode []) shellSnapshot
        sampleTx).node.Graph.CacheRound (pendingNode []).IdForNetwork = some cache2 ∧
      cache2.Number = u64 ((sampleEnv.asFinal cache).Number + 1) ∧
      ((sampleEnv.asFinal cache).Number + 1 < 2 ^ 64 →
        cache2.Number = (sampleEnv.asFinal cache).Number + 1) ∧
      cache2.References =
        some { Self := (sampleEnv.asFinal cache).Hash, External := best.Hash } ∧
      (signSelfSnapshot sampleEnv clockPast (pendingNode []) shellSnapshot
        sampleTx).node.Graph.FinalRound (pendingNode []).IdForNetwork =
        some (sampleEnv.asFinal cache) ∧
      (signSelfSnapshot sampleEnv clockPast (pendingNode []) shellSnapshot
        sampleTx).snap.RoundNumber = cache2.Number ∧
      (signSelfSnapshot sampleEnv clockPast (pendingNode []) shellSnapshot
        sampleTx).snap.References = cache2.References ∧
      ∀ id n refs st,
        Call.StartNewRound id n refs st ∈ (signSelfSnapshot sampleEnv clockPast (pendingNode [])
            shellSnapshot sampleTx).calls ↔
          (id = (pendingNode []).IdForNetwork ∧ n = cache2.Number ∧ refs = cache2.References ∧
            st = (sampleEnv.asFinal cache).Start) :=
  signSelfSnapshot_rotation sampleEnv clockPast (pendingNode []) shellSnapshot sampleTx
    ⟨⟨0, 77, some ⟨1001, 2000⟩, 2, 70, [], 0⟩, by decide⟩
    ⟨0, 2, some ⟨1001, 2000⟩, 50, by decide⟩

theorem signSelfSnapshot_of_stamps (env : Env) (clock : Clock) (node : Node) (s : Snapshot)
    (tx : SignedTransaction) (cache : CacheRound) (final : FinalRound) (ts : Nat)
    (h : stamps env clock node s cache final ts) :
    signSelfSnapshot env clock node s tx =
      if ts ≥ rotationBound env cache then
        rotateRound env clock
          { node with
            CachePool := (checkCacheCapability env clock.capability node.CachePool).2 }
          { s with Timestamp := ts } tx cache final
      else
        finishSign env
          { node with
            CachePool := (checkCacheCapability env clock.capability node.CachePool).2 }
          { s with Timestamp := ts } tx cache final [] := by
  obtain ⟨hpre, hc, hf, hcap, hsync, hst⟩ := h
  have hp : ¬ (s.NodeId ≠ node.IdForNetwork ∨ s.Signatures.length ≠ 0 ∨ s.Timestamp ≠ 0) := by
    simp [hpre.1, hpre.2.1, hpre.2.2]
  have hcap2 : ¬ ((!(checkCacheCapability env clock.capability node.CachePool).1) = true) := by
    rw [hcap]
    simp
  unfold signSelfSnapshot
  rw [if_neg hp, hc, hf]
  dsimp only
  rw [if_neg hcap2, if_neg hsync, hst]
  rfl

theorem stamps_of_signed (env : Env) (clock : Clock) (node : Node) (s : Snapshot)
    (tx : SignedTransaction) (h : (signSelfSnapshot env clock node s tx).signed) :
    ∃ cache final ts, stamps env clock node s cache final ts := by
  by_cases hp : s.NodeId ≠ node.IdForNetwork ∨ s.Signatures.length ≠ 0 ∨ s.Timestamp ≠ 0
  · exfalso
    unfold signSelfSnapshot at h
    rw [if_pos hp] at h
    exact not_signed_of_calls_nil _ _ _ h
  have hpre : s.NodeId = node.IdForNetwork ∧ s.Signatures.length = 0 ∧ s.Timestamp = 0 := by
    simp only [not_or, not_not, ne_eq] at hp
    exact hp
  unfold signSelfSnapshot at h
  rw [if_neg hp] at h
  cases hc : node.Graph.CacheRound s.NodeId with
  | none =>
    rw [hc] at h
    exact absurd h (not_signed_of_calls_nil _ _ _)
  | some cache =>
    cases hf : node.Graph.FinalRound s.NodeId with
    | none =>
      rw [hc, hf] at h
      exact absurd h (not_signed_of_calls_nil _ _ _)
    | some final =>
      rw [hc, hf] at h
      dsimp only at h
      by_cases hcap : (!(checkCacheCapability env clock.capability node.CachePool).1) = true
      · rw [if_pos hcap] at h
        exact absurd h (queueSnapshotOrPanic_not_signed _ _ _ _)
      rw [if_neg hcap] at h
      by_cases hsync : (!env.CheckSync
          { node with
            CachePool := (checkCacheCapability env clock.capability node.CachePool).2 } &&
          cache.Snapshots.length == 0) = true
      · rw [if_pos hsync] at h
        exact absurd h (queueSnapshotOrPanic_not_signed _ _ _ _)
      cases hst : stampLoop cache.Timestamp clock.stamps with
      | none =>
        rw [if_neg hsync, hst] at h
        exact absurd h (not_signed_of_calls_nil _ _ _)
      | some ts =>
        refine ⟨cache, final, ts, hpre, hc, hf, ?_, hsync, hst⟩
        simpa using hcap

theorem finishSign_signed (env : Env) (node : Node) (s : Snapshot) (tx : SignedTransaction)
    (cache : CacheRound) (final : FinalRound) (calls : List Call) :
    (finishSign env node s tx cache final calls).signed := by
  refine ⟨{ s with RoundNumber := cache.Number, References := cache.References }, ?_⟩
  unfold finishSign
  dsimp only
  split <;> simp

theorem rotateRound_cases (env : Env) (clock : Clock) (node : Node) (s : Snapshot)
    (tx : SignedTransaction) (cache : CacheRound) (final : FinalRound) :
    (∀ best,
        (determinBestRound env node.IdForNetwork clock.best node.Graph.RoundHistory).1 =
          some (some best) →
        best.NodeId ≠ final.NodeId →
        (env.StartNewRound s.NodeId (u64 ((env.asFinal cache).Number + 1))
            (some { Self := (env.asFinal cache).Hash, External := best.Hash })
            (env.asFinal cache).Start = none →
          rotateRound env clock node s tx cache final =
            finishSign env (rotatedNode env clock node) s tx (rotatedCache env s cache best)
              (env.asFinal cache)
              [Call.StartNewRound s.NodeId (u64 ((env.asFinal cache).Number + 1))
                (some { Self := (env.asFinal cache).Hash, External := best.Hash })
                (env.asFinal cache).Start]) ∧
        (env.StartNewRound s.NodeId (u64 ((env.asFinal cache).Number + 1))
            (some { Self := (env.asFinal cache).Hash, External := best.Hash })
            (env.asFinal cache).Start ≠ none →
          (rotateRound env clock node s tx cache final).outcome = Outcome.panicked ∧
          (rotateRound env clock node s tx cache final).calls =
            [Call.StartNewRound s.NodeId (u64 ((env.asFinal cache).Number + 1))
              (some { Self := (env.asFinal cache).Hash, External := best.Hash })
              (env.asFinal cache).Start])) ∧
      ((∀ best,
          (determinBestRound env node.IdForNetwork clock.best node.Graph.RoundHistory).1 =
            some (some best) →
          best.NodeId = final.NodeId) →
        (rotateRound env clock node s tx cache final).outcome = Outcome.panicked ∧
        (rotateRound env clock node s tx cache final).calls = []) := by
  constructor
  · intro best hbest hne
    unfold rotateRound
    dsimp only
    rw [hbest]
    dsimp only
    rw [if_neg hne]
    constructor
    · intro hstart
      rw [hstart]
      rfl
    · intro hstart
      cases hs : env.StartNewRound s.NodeId (u64 ((env.asFinal cache).Number + 1))
          (some { Self := (env.asFinal cache).Hash, External := best.Hash })
          (env.asFinal cache).Start with
      | none => exact absurd hs hstart
      | some e => exact ⟨rfl, rfl⟩
  · intro hall
    unfold rotateRound
    dsimp only
    cases hfound :
        (determinBestRound env node.IdForNetwork clock.best node.Graph.RoundHistory).1 with
    | none => exact ⟨rfl, rfl⟩
    | some ob =>
      cases ob with
      | none => exact ⟨rfl, rfl⟩
      | some best =>
        dsimp only
        rw [if_pos (hall best hfound)]
        exact ⟨rfl, rfl⟩

/-- C8: for every call of `signSelfSnapshot` that stamps a timestamp `ts`, with `cache`
and `final` the rounds of the local node when the call began. If `ts` is below
`cache.Gap().start + SnapshotRoundGap` (a `uint64` sum), the call signs without
rotating: `StartNewRound` is not called, number and references of `CacheRound[self]`
and `FinalRound[self]` are unchanged and the cache pool keeps its entries (reordered by
the sort, with the signed snapshot appended once broadcast). If `ts` has reached that
bound, the call rotates: with `best` the round `determinBestRound` returns, of another
node than `final`, it calls `StartNewRound` for round `final.Number + 1`, and when
that succeeds it signs with the new cache round stored, `cache.asFinal()` as
`FinalRound[self]` and the cache pool emptied before the signed snapshot is appended;
when `StartNewRound` fails, or no such `best` is returned, the call panics without
signing. -/
theorem signSelfSnapshot_rotates_iff_gap (env : Env) (clock : Clock) (node : Node)
    (s : Snapshot) (tx : SignedTransaction) (cache : CacheRound) (final : FinalRound)
    (ts : Nat) (h : stamps env clock node s cache final ts) :
    (ts < rotationBound env cache →
        (signSelfSnapshot env clock node s tx).signed ∧
        (signSelfSnapshot env clock node s tx).snap.Timestamp = ts ∧
        ¬ (signSelfSnapshot env clock node s tx).rotated ∧
        (∃ cache2,
          (signSelfSnapshot env clock node s tx).node.Graph.CacheRound node.IdForNetwork =
            some cache2 ∧
          cache2.Number = cache.Number ∧ cache2.References = cache.References) ∧
        (signSelfSnapshot env clock node s tx).node.Graph.FinalRound node.IdForNetwork =
          some final ∧
        ((signSelfSnapshot env clock node s tx).node.CachePool.Perm node.CachePool ∨
          (signSelfSnapshot env clock node s tx).node.CachePool.Perm
            (node.CachePool ++ [(signSelfSnapshot env clock node s tx).snap]))) ∧
      (rotationBound env cache ≤ ts →
        (∀ best,
          (determinBestRound env node.IdForNetwork clock.best node.Graph.RoundHistory).1 =
            some (some best) →
          best.NodeId ≠ final.NodeId →
          (signSelfSnapshot env clock node s tx).rotated ∧
          Call.StartNewRound node.IdForNetwork (u64 ((env.asFinal cache).Number + 1))
              (some { Self := (env.asFinal cache).Hash, External := best.Hash })
              (env.asFinal cache).Start ∈ (signSelfSnapshot env clock node s tx).calls ∧
          (env.StartNewRound node.IdForNetwork (u64 ((env.asFinal cache).Number + 1))
              (some { Self := (env.asFinal cache).Hash, External := best.Hash })
              (env.asFinal cache).Start = none →
            (signSelfSnapshot env clock node s tx).signed ∧
            (signSelfSnapshot env clock node s tx).snap.Timestamp = ts ∧
            (signSelfSnapshot env clock node s tx).node.Graph.CacheRound node.IdForNetwork =
              some { rotatedCache env s cache best with Timestamp := ts } ∧
            (signSelfSnapshot env clock node s tx).node.Graph.FinalRound node.IdForNetwork =
              some (env.asFinal cache) ∧
            ((signSelfSnapshot env clock node s tx).node.CachePool = [] ∨
              (signSelfSnapshot env clock node s tx).node.CachePool =
                [(signSelfSnapshot env clock node s tx).snap])) ∧
          (env.StartNewRound node.IdForNetwork (u64 ((env.asFinal cache).Number + 1))
              (some { Self := (env.asFinal cache).Hash, External := best.Hash })
              (env.asFinal cache).Start ≠ none →
            (signSelfSnapshot env clock node s tx).outcome = Outcome.panicked ∧
            ¬ (signSelfSnapshot env clock node s tx).signed)) ∧
        ((∀ best,
            (determinBestRound env node.IdForNetwork clock.best node.Graph.RoundHistory).1 =
              some (some best) →
            best.NodeId = final.NodeId) →
          (signSelfSnapshot env clock node s tx).outcome = Outcome.panicked ∧
          ¬ (signSelfSnapshot env clock node s tx).rotated ∧
          ¬ (signSelfSnapshot env clock node s tx).signed)) := by
  have hrun := signSelfSnapshot_of_stamps env clock node s tx cache final ts h
  obtain ⟨hpre, hc, hf, _, _, _⟩ := h
  have hid := hpre.1
  constructor
  · intro hlt
    rw [if_neg (by omega)] at hrun
    refine ⟨?_, ?_, ?_, ⟨{ cache with Timestamp := ts }, ?_, rfl, rfl⟩, ?_, ?_⟩
    · rw [hrun]
      exact finishSign_signed _ _ _ _ _ _ _
    · rw [hrun, (finishSign_snap _ _ _ _ _ _ _).1]
    · rintro ⟨id, n, refs, st, hm⟩
      rw [hrun, finishSign_startNewRound_mem] at hm
      simp at hm
    · rw [hrun, finishSign_graph]
      dsimp only
      rw [hid]
      exact Function.update_same _ _ _
    · rw [hrun, finishSign_graph]
      dsimp only
      rw [hid]
      exact Function.update_same _ _ _
    · have hperm := checkCacheCapability_perm env clock.capability node.CachePool
      rcases finishSign_pool env
        { node with
          CachePool := (checkCacheCapability env clock.capability node.CachePool).2 }
        { s with Timestamp := ts } tx cache final [] with hp | hp
      · left
        rw [hrun, hp]
        exact hperm
      · right
        rw [hrun, hp]
        exact List.Perm.append_right _ hperm
  · intro hge
    rw [if_pos hge] at hrun
    obtain ⟨hgood, hbad⟩ := rotateRound_cases env clock
      { node with CachePool := (checkCacheCapability env clock.capability node.CachePool).2 }
      { s with Timestamp := ts } tx cache final
    constructor
    · intro best hbest hne
      obtain ⟨hok, hfail⟩ := hgood best hbest hne
      have hmem : Call.StartNewRound node.IdForNetwork (u64 ((env.asFinal cache).Number + 1))
          (some { Self := (env.asFinal cache).Hash, External := best.Hash })
          (env.asFinal cache).Start ∈ (signSelfSnapshot env clock node s tx).calls := by
        rw [← hid, hrun]
        cases hs : env.StartNewRound s.NodeId (u64 ((env.asFinal cache).Number + 1))
            (some { Self := (env.asFinal cache).Hash, External := best.Hash })
            (env.asFinal cache).Start with
        | none =>
          rw [hok hs, finishSign_startNewRound_mem]
          exact List.mem_singleton.2 rfl
        | some e =>
          have hne2 : env.StartNewRound s.NodeId (u64 ((env.asFinal cache).Number + 1))
              (some { Self := (env.asFinal cache).Hash, External := best.Hash })
              (env.asFinal cache).Start ≠ none := by
            rw [hs]
            simp
          rw [(hfail hne2).2]
          exact List.mem_singleton.2 rfl
      refine ⟨⟨_, _, _, _, hmem⟩, hmem, ?_, ?_⟩
      · intro hs
        rw [← hid] at hs
        have hr2 := hok hs
        rw [hr2] at hrun
        refine ⟨?_, ?_, ?_, ?_, ?_⟩
        · rw [hrun]
          exact finishSign_signed _ _ _ _ _ _ _
        · rw [hrun, (finishSign_snap _ _ _ _ _ _ _).1]
        · rw [hrun, finishSign_graph]
          dsimp only
          rw [← hid, Function.update_same]
          rfl
        · rw [hrun, finishSign_graph]
          dsimp only
          rw [hid]
          exact Function.update_same _ _ _
        · rcases finishSign_pool env (rotatedNode env clock
              { node with
                CachePool := (checkCacheCapability env clock.capability node.CachePool).2 })
            { s with Timestamp := ts } tx
            (rotatedCache env { s with Timestamp := ts } cache best) (env.asFinal cache)
            [Call.StartNewRound s.NodeId (u64 ((env.asFinal cache).Number + 1))
              (some { Self := (env.asFinal cache).Hash, External := best.Hash })
              (env.asFinal cache).Start] with hp | hp
          · left
            rw [hrun, hp]
            rfl
          · right
            rw [hrun, hp]
            rfl
      · intro hs
        rw [← hid] at hs
        obtain ⟨ho, hcalls⟩ := hfail hs
        refine ⟨by rw [hrun]; exact ho, ?_⟩
        rintro ⟨x, hx⟩
        rw [hrun, hcalls] at hx
        simp at hx
    · intro hall
      obtain ⟨ho, hcalls⟩ := hbad hall
      refine ⟨by rw [hrun]; exact ho, ?_, ?_⟩
      · rintro ⟨id, n, refs, st, hm⟩
        rw [hrun, hcalls] at hm
        simp at hm
      · rintro ⟨x, hx⟩
        rw [hrun, hcalls] at hx
        simp at hx

/-- C8, at the sample environment: a signing past the round gap calls `StartNewRound`
for round 2, signs, and stores the frozen round 1 as `FinalRound[self]`. -/
theorem signSelfSnapshot_rotates_iff_gap_witness :
    (signSelfSnapshot sampleEnv clockPast (pendingNode []) shellSnapshot sampleTx).rotated ∧
      (signSelfSnapshot sampleEnv clockPast (pendingNode []) shellSnapshot sampleTx).signed ∧
      (signSelfSnapshot sampleEnv clockPast (pendingNode []) shellSnapshot
        sampleTx).node.Graph.FinalRound (pendingNode []).IdForNetwork =
          some (sampleEnv.asFinal ⟨0, 1, 50, some ⟨1000, 2000⟩, []⟩) :=
  ⟨(((signSelfSnapshot_rotates_iff_gap sampleEnv clockPast (pendingNode []) shellSnapshot
        sampleTx ⟨0, 1, 50, some ⟨1000, 2000⟩, []⟩ ⟨0, 0, 10, 1000⟩ 70
        ⟨⟨rfl, rfl, rfl⟩, rfl, rfl, by decide, by decide, by decide⟩).2 (by decide)).1
      ⟨1, 0, 5, 2000⟩ (by decide) (by decide)).1,
    ((((signSelfSnapshot_rotates_iff_gap sampleEnv clockPast (pendingNode []) shellSnapshot
        sampleTx ⟨0, 1, 50, some ⟨1000, 2000⟩, []⟩ ⟨0, 0, 10, 1000⟩ 70
        ⟨⟨rfl, rfl, rfl⟩, rfl, rfl, by decide, by decide, by decide⟩).2 (by decide)).1
      ⟨1, 0, 5, 2000⟩ (by decide) (by decide)).2.2.1 (by decide)).1,
    ((((signSelfSnapshot_rotates_iff_gap sampleEnv clockPast (pendingNode []) shellSnapshot
        sampleTx ⟨0, 1, 50, some ⟨1000, 2000⟩, []⟩ ⟨0, 0, 10, 1000⟩ 70
        ⟨⟨rfl, rfl, rfl⟩, rfl, rfl, by decide, by decide, by decide⟩).2 (by decide)).1
      ⟨1, 0, 5, 2000⟩ (by decide) (by decide)).2.2.1 (by decide)).2.2.2.1⟩

/-! ## Theorems: `checkCacheCapability` -/

theorem foldr_min_spec (t0 : Nat) (rest : List Snapshot) :
    List.foldr (fun x m => min x.Timestamp m) t0 rest ≤ t0 ∧
      (∀ x ∈ rest, List.foldr (fun x m => min x.Timestamp m) t0 rest ≤ x.Timestamp) ∧
      (List.foldr (fun x m => min x.Timestamp m) t0 rest = t0 ∨
        ∃ x ∈ rest, x.Timestamp = List.foldr (fun x m => min x.Timestamp m) t0 rest) := by
  induction rest with
  | nil => simp
  | cons y ys ih =>
    obtain ⟨h0, hle, hex⟩ := ih
    simp only [List.foldr_cons, List.mem_cons]
    refine ⟨by omega, ?_, ?_⟩
    · intro x hx
      rcases hx with hx | hx
      · rw [hx]
        omega
      · have := hle x hx
        omega
    · by_cases hc : y.Timestamp ≤ List.foldr (fun x m => min x.Timestamp m) t0 ys
      · exact Or.inr ⟨y, Or.inl rfl, by omega⟩
      · rcases hex with hex | ⟨x, hx, hxe⟩
        · exact Or.inl (by omega)
        · exact Or.inr ⟨x, Or.inr hx, by omega⟩

theorem foldr_max_spec (t0 : Nat) (rest : List Snapshot) :
    t0 ≤ List.foldr (fun x m => max x.Timestamp m) t0 rest ∧
      (∀ x ∈ rest, x.Timestamp ≤ List.foldr (fun x m => max x.Timestamp m) t0 rest) ∧
      (List.foldr (fun x m => max x.Timestamp m) t0 rest = t0 ∨
        ∃ x ∈ rest, x.Timestamp = List.foldr (fun x m => max x.Timestamp m) t0 rest) := by
  induction rest with
  | nil => simp
  | cons y ys ih =>
    obtain ⟨h0, hle, hex⟩ := ih
    simp only [List.foldr_cons, List.mem_cons]
    refine ⟨by omega, ?_, ?_⟩
    · intro x hx
      rcases hx with hx | hx
      · rw [hx]
        omega
      · have := hle x hx
        omega
    · by_cases hc : List.foldr (fun x m => max x.Timestamp m) t0 ys ≤ y.Timestamp
      · exact Or.inr ⟨y, Or.inl rfl, by omega⟩
      · rcases hex with hex | ⟨x, hx, hxe⟩
        · exact Or.inl (by omega)
        · exact Or.inr ⟨x, Or.inr hx, by omega⟩

theorem oldestTimestamp_spec (s : Snapshot) (rest : List Snapshot) :
    (∀ x ∈ s :: rest, oldestTimestamp (s :: rest) ≤ x.Timestamp) ∧
      ∃ x ∈ s :: rest, x.Timestamp = oldestTimestamp (s :: rest) := by
  obtain ⟨h0, hle, hex⟩ := foldr_min_spec s.Timestamp rest
  show (∀ x ∈ s :: rest, List.foldr (fun x m => min x.Timestamp m) s.Timestamp rest ≤
      x.Timestamp) ∧
    ∃ x ∈ s :: rest, x.Timestamp = List.foldr (fun x m => min x.Timestamp m) s.Timestamp rest
  constructor
  · intro x hx
    rcases List.mem_cons.1 hx with hx | hx
    · rw [hx]
      exact h0
    · exact hle x hx
  · rcases hex with hex | ⟨x, hx, hxe⟩
    · exact ⟨s, by simp, hex.symm⟩
    · exact ⟨x, List.mem_cons_of_mem _ hx, hxe⟩

theorem newestTimestamp_spec (s : Snapshot) (rest : List Snapshot) :
    (∀ x ∈ s :: rest, x.Timestamp ≤ newestTimestamp (s :: rest)) ∧
      ∃ x ∈ s :: rest, x.Timestamp = newestTimestamp (s :: rest) := by
  obtain ⟨h0, hle, hex⟩ := foldr_max_spec s.Timestamp rest
  show (∀ x ∈ s :: rest, x.Timestamp ≤
      List.foldr (fun x m => max x.Timestamp m) s.Timestamp rest) ∧
    ∃ x ∈ s :: rest, x.Timestamp = List.foldr (fun x m => max x.Timestamp m) s.Timestamp rest
  constructor
  · intro x hx
    rcases List.mem_cons.1 hx with hx | hx
    · rw [hx]
      exact h0
    · exact hle x hx
  · rcases hex with hex | ⟨x, hx, hxe⟩
    · exact ⟨s, by simp, hex.symm⟩
    · exact ⟨x, List.mem_cons_of_mem _ hx, hxe⟩

theorem sorted_head_le (l : List Snapshot) (first : Snapshot)
    (hs : List.Sorted (fun a b : Snapshot => a.Timestamp ≤ b.Timestamp) l)
    (hh : l.head? = some first) : ∀ x ∈ l, first.Timestamp ≤ x.Timestamp := by
  obtain ⟨ys, rfl⟩ := List.head?_eq_some_iff.1 hh
  intro x hx
  rcases List.mem_cons.1 hx with hx | hx
  · rw [hx]
  · exact List.rel_of_sorted_cons hs x hx

theorem sorted_le_last (l : List Snapshot) (last : Snapshot)
    (hs : List.Sorted (fun a b : Snapshot => a.Timestamp ≤ b.Timestamp) l)
    (hl : l.getLast? = some last) : ∀ x ∈ l, x.Timestamp ≤ last.Timestamp := by
  obtain ⟨ys, rfl⟩ := List.getLast?_eq_some_iff.1 hl
  intro x hx
  rcases List.mem_append.1 hx with hx | hx
  · have := (List.pairwise_append.1 hs).2.2 x hx last (by simp)
    exact this
  · simp only [List.mem_singleton] at hx
    rw [hx]

theorem insertionSort_ends (pool : List Snapshot) (hne : pool ≠ []) :
    ∃ first last,
      (pool.insertionSort (fun a b => a.Timestamp ≤ b.Timestamp)).head? = some first ∧
      (pool.insertionSort (fun a b => a.Timestamp ≤ b.Timestamp)).getLast? = some last ∧
      first.Timestamp = oldestTimestamp pool ∧ last.Timestamp = newestTimestamp pool := by
  haveI : IsTotal Snapshot (fun a b => a.Timestamp ≤ b.Timestamp) :=
    ⟨fun a b => Nat.le_total _ _⟩
  haveI : IsTrans Snapshot (fun a b => a.Timestamp ≤ b.Timestamp) :=
    ⟨fun a b c h1 h2 => Nat.le_trans h1 h2⟩
  have hs := List.sorted_insertionSort (fun a b : Snapshot => a.Timestamp ≤ b.Timestamp) pool
  have hp := List.perm_insertionSort (fun a b : Snapshot => a.Timestamp ≤ b.Timestamp) pool
  have hsne : pool.insertionSort (fun a b => a.Timestamp ≤ b.Timestamp) ≠ [] := by
    intro h
    rw [h] at hp
    exact hne (List.Perm.nil_eq hp).symm
  obtain ⟨s, rest, rfl⟩ := List.exists_cons_of_ne_nil hne
  obtain ⟨hole, xo, hxo, hxoe⟩ := oldestTimestamp_spec s rest
  obtain ⟨hnew, xn, hxn, hxne⟩ := newestTimestamp_spec s rest
  have hh : ((s :: rest).insertionSort (fun a b => a.Timestamp ≤ b.Timestamp)).head? =
      some (((s :: rest).insertionSort (fun a b => a.Timestamp ≤ b.Timestamp)).head hsne) :=
    List.head?_eq_head hsne
  have hl := List.getLast?_eq_getLast _ hsne
  refine ⟨_, _, hh, hl, ?_, ?_⟩
  · have h1 := sorted_head_le _ _ hs hh xo (hp.mem_iff.2 hxo)
    have h2 := hole _ (hp.mem_iff.1 (List.head_mem hsne))
    omega
  · have h1 := sorted_le_last _ _ hs hl xn (hp.mem_iff.2 hxn)
    have h2 := hnew _ (hp.mem_iff.1 (List.getLast_mem hsne))
    omega

theorem checkCacheCapability_fst (env : Env) (now : Nat) (pool : List Snapshot) :
    (checkCacheCapability env now pool).1 = capabilityReference env now pool := by
  by_cases hne : pool = []
  · subst hne
    simp [checkCacheCapability, capabilityReference]
  · obtain ⟨first, last, hh, hl, hf, hla⟩ := insertionSort_ends pool hne
    have hlen : ¬ pool.length = 0 := fun h => hne (List.length_eq_zero.1 h)
    unfold checkCacheCapability capabilityReference
    rw [if_neg hlen]
    simp only [hh, hl, hf, hla]
    have hemp : pool.isEmpty = false := by
      cases pool with
      | nil => exact absurd rfl hne
      | cons a b => rfl
    rw [hemp]
    split_ifs with hc <;> simp [hc]

/-- C11: for every cache pool and clock reading, `checkCacheCapability` answers as the
reference decision does: true exactly when the pool is empty, or `now` is at least the
oldest timestamp plus `SnapshotRoundGap*3/2`, or the newest timestamp is below the
oldest plus `SnapshotRoundGap/3*2`, the sums being `uint64` sums; so once `now` has
reached the first bound the answer is true whatever the spread of the pool. -/
theorem checkCacheCapability_eq_reference (env : Env) (now : Nat) (pool : List Snapshot) :
    (checkCacheCapability env now pool).1 = capabilityReference env now pool ∧
      ((checkCacheCapability env now pool).1 = true ↔
        (pool = [] ∨ now ≥ u64 (oldestTimestamp pool + env.SnapshotRoundGap * 3 / 2) ∨
          newestTimestamp pool < u64 (oldestTimestamp pool + env.SnapshotRoundGap / 3 * 2))) ∧
      (now ≥ u64 (oldestTimestamp pool + env.SnapshotRoundGap * 3 / 2) →
        (checkCacheCapability env now pool).1 = true) := by
  have key := checkCacheCapability_fst env now pool
  refine ⟨key, ?_, ?_⟩
  · rw [key]
    unfold capabilityReference
    simp only [List.isEmpty_iff, Bool.or_eq_true, decide_eq_true_eq, ge_iff_le]
    exact or_assoc
  · intro h
    rw [key]
    unfold capabilityReference
    simp [h]

/-- C11, at the sample environment: a pool spread over 50 with the clock past the first
bound. -/
theorem checkCacheCapability_eq_reference_witness :
    100 ≥ u64 (oldestTimestamp [cached 1 60, cached 2 10] + sampleEnv.SnapshotRoundGap * 3 / 2) ∧
      (checkCacheCapability sampleEnv 100 [cached 1 60, cached 2 10]).1 = true :=
  ⟨by decide,
    (checkCacheCapability_eq_reference sampleEnv 100 [cached 1 60, cached 2 10]).2.2
      (by decide)⟩

/-- C12 (counterexample): five entries with the timestamps 100 to 103, all within a
third of the gap 10 of each other, and the clock at 105, before 100 + 15: the answer is
true, not false. -/
theorem checkCacheCapability_close_pool_true :
    [cached 1 100, cached 2 101, cached 3 102, cached 4 103, cached 5 103].length = 5 ∧
      (∀ x ∈ [cached 1 100, cached 2 101, cached 3 102, cached 4 103, cached 5 103],
        ∀ y ∈ [cached 1 100, cached 2 101, cached 3 102, cached 4 103, cached 5 103],
          3 * (x.Timestamp - y.Timestamp) ≤ sampleEnv.SnapshotRoundGap) ∧
      105 < 100 + sampleEnv.SnapshotRoundGap * 3 / 2 ∧
      (checkCacheCapability sampleEnv 105
        [cached 1 100, cached 2 101, cached 3 102, cached 4 103, cached 5 103]).1 = true := by
  decide

/-- C12 (amended): for every cache pool of 5 entries whose timestamps are all within one
third of `SnapshotRoundGap` of each other and every `now` less than
`SnapshotRoundGap*3/2` past the oldest timestamp, `checkCacheCapability` reports true,
provided the gap is at least 3 and the `uint64` sums do not wrap around. -/
theorem checkCacheCapability_close_pool (env : Env) (now : Nat) (pool : List Snapshot)
    (hlen : pool.length = 5)
    (hclose : ∀ x ∈ pool, ∀ y ∈ pool, 3 * (x.Timestamp - y.Timestamp) ≤ env.SnapshotRoundGap)
    (hnow : now < oldestTimestamp pool + env.SnapshotRoundGap * 3 / 2)
    (hgap : 3 ≤ env.SnapshotRoundGap)
    (hfit : oldestTimestamp pool + env.SnapshotRoundGap * 3 / 2 < 2 ^ 64) :
    (checkCacheCapability env now pool).1 = true := by
  rw [checkCacheCapability_fst]
  cases pool with
  | nil => simp at hlen
  | cons s rest =>
    obtain ⟨_, xo, hxo, hxoe⟩ := oldestTimestamp_spec s rest
    obtain ⟨_, xn, hxn, hxne⟩ := newestTimestamp_spec s rest
    have h1 := hclose xn hxn xo hxo
    rw [hxoe, hxne] at h1
    have h2 : u64 (oldestTimestamp (s :: rest) + env.SnapshotRoundGap / 3 * 2) =
        oldestTimestamp (s :: rest) + env.SnapshotRoundGap / 3 * 2 := by
      unfold u64
      apply Nat.mod_eq_of_lt
      have : (2 : Nat) ^ 64 = 18446744073709551616 := by norm_num
      omega
    unfold capabilityReference
    rw [h2]
    have h3 : newestTimestamp (s :: rest) <
        oldestTimestamp (s :: rest) + env.SnapshotRoundGap / 3 * 2 := by omega
    simp [h3]

/-- C12 (amended), at the sample environment: the five entries of the counterexample. -/
theorem checkCacheCapability_close_pool_witness :
    (checkCacheCapability sampleEnv 105
      [cached 1 100, cached 2 101, cached 3 102, cached 4 103, cached 5 103]).1 = true :=
  checkCacheCapability_close_pool sampleEnv 105
    [cached 1 100, cached 2 101, cached 3 102, cached 4 103, cached 5 103]
    (by decide) (by decide) (by decide) (by decide) (by decide)

/-! ## Theorems: `validateDepositInput` -/

theorem domainLoop_iff (denv : DepositEnv) (msg : List Nat) (sig : Signature) :
    ∀ ds : List Domain, domainLoop denv msg sig ds = true ↔
      ∃ d ∈ ds, denv.Verify d.Account.PublicSpendKey msg sig = true := by
  intro ds
  induction ds with
  | nil => simp [domainLoop]
  | cons d rest ih =>
    unfold domainLoop
    by_cases h : denv.Verify d.Account.PublicSpendKey msg sig = true
    · simp [h]
    · simp [h, ih]

/-- C13: a transaction whose `Inputs` do not have length 1, or whose `Signatures` are
not exactly one group of exactly one signature, is rejected with an error; the call
returns (no index is read out of range) and `store.ReadDomains()` is not called. -/
theorem validateDepositInput_rejects_malformed (denv : DepositEnv) (tx : SignedTransaction)
    (msg : List Nat)
    (h : tx.Inputs.length ≠ 1 ∨ ¬ ∃ sig, tx.Signatures = [[sig]]) :
    ∃ e, validateDepositInput denv tx msg = ⟨Outcome.returned (some e), false⟩ := by
  unfold validateDepositInput
  by_cases h1 : tx.Inputs.length ≠ 1
  · rw [if_pos h1]
    exact ⟨_, rfl⟩
  rw [if_neg h1]
  by_cases h2 : tx.Signatures.length ≠ 1
  · rw [if_pos h2]
    exact ⟨_, rfl⟩
  rw [if_neg h2]
  have hs : ¬ ∃ sig, tx.Signatures = [[sig]] := by
    rcases h with h | h
    · exact absurd h h1
    · exact h
  cases hsg : tx.Signatures with
  | nil => simp [hsg] at h2
  | cons g rest =>
    cases rest with
    | cons g2 rest2 => simp [hsg] at h2
    | nil =>
      have hg : g.length ≠ 1 := by
        intro hlen
        cases g with
        | nil => simp at hlen
        | cons sig gr =>
          cases gr with
          | nil => exact hs ⟨sig, hsg⟩
          | cons a b => simp at hlen
      simp only [List.getElem?_cons_zero]
      rw [if_pos hg]
      exact ⟨_, rfl⟩

/-- C13, at the sample deposit environment: a transaction with two inputs. -/
theorem validateDepositInput_rejects_malformed_witness :
    ∃ e, validateDepositInput sampleDeposit ⟨5, [⟨none⟩, ⟨none⟩], [[⟨7⟩]]⟩ [] =
      ⟨Outcome.returned (some e), false⟩ :=
  validateDepositInput_rejects_malformed sampleDeposit ⟨5, [⟨none⟩, ⟨none⟩], [[⟨7⟩]]⟩ []
    (Or.inl (by decide))

/-- C14: for a transaction with exactly one input and exactly one group of exactly one
signature, `validateDepositInput` returns, and it returns no error exactly when the
asset-input validation of the deposit succeeds, `deposit.AssetId()` equals `tx.Asset`
and some entry of `store.ReadDomains()` has a `PublicSpendKey` that verifies the
signature over `msg`; otherwise it returns an error, in particular when the domain
list is empty. -/
theorem validateDepositInput_accepts_iff (denv : DepositEnv) (tx : SignedTransaction)
    (msg : List Nat) (input : Input) (sig : Signature)
    (hin : tx.Inputs = [input]) (hsig : tx.Signatures = [[sig]]) :
    ((validateDepositInput denv tx msg).outcome = Outcome.returned none ↔
        (denv.validateEthereumAssetInput input.Deposit = none ∧
          denv.AssetId input.Deposit = tx.Asset ∧
          ∃ d ∈ denv.ReadDomains, denv.Verify d.Account.PublicSpendKey msg sig = true)) ∧
      ((validateDepositInput denv tx msg).outcome ≠ Outcome.returned none →
        ∃ e, (validateDepositInput denv tx msg).outcome = Outcome.returned (some e)) ∧
      (denv.ReadDomains = [] →
        ∃ e, (validateDepositInput denv tx msg).outcome = Outcome.returned (some e)) := by
  have hrun : validateDepositInput denv tx msg =
      match denv.validateEthereumAssetInput input.Deposit with
      | some err => ⟨Outcome.returned (some err), false⟩
      | none =>
        if denv.AssetId input.Deposit ≠ tx.Asset then
          ⟨Outcome.returned (some "invalid asset"), false⟩
        else if domainLoop denv msg sig denv.ReadDomains then ⟨Outcome.returned none, true⟩
        else ⟨Outcome.returned (some "invalid domain signature for deposit"), true⟩ := by
    unfold validateDepositInput verifyDepositFormat
    simp only [hin, hsig, List.length_singleton, ne_eq, not_true_eq_false, if_false,
      List.getElem?_cons_zero]
    cases hv : denv.validateEthereumAssetInput input.Deposit with
    | some err => rfl
    | none =>
      simp only
      by_cases ha : denv.AssetId input.Deposit = tx.Asset
      · simp only [ha, not_true_eq_false, if_false]
      · simp only [ha, not_false_eq_true, if_true]
  have hiff := domainLoop_iff denv msg sig denv.ReadDomains
  rw [hrun]
  cases hv : denv.validateEthereumAssetInput input.Deposit with
  | some err =>
    refine ⟨?_, fun _ => ⟨err, rfl⟩, fun _ => ⟨err, rfl⟩⟩
    simp
  | none =>
    by_cases ha : denv.AssetId input.Deposit = tx.Asset
    · have hna : ¬ denv.AssetId input.Deposit ≠ tx.Asset := not_not.2 ha
      by_cases hd : domainLoop denv msg sig denv.ReadDomains = true
      · simp only
        rw [if_neg hna, if_pos hd]
        refine ⟨?_, fun h => absurd rfl h, ?_⟩
        · exact ⟨fun _ => ⟨trivial, ha, hiff.1 hd⟩, fun _ => rfl⟩
        · intro hempty
          rw [hempty] at hd
          simp [domainLoop] at hd
      · simp only
        rw [if_neg hna, if_neg hd]
        refine ⟨?_, fun _ => ⟨_, rfl⟩, fun _ => ⟨_, rfl⟩⟩
        constructor
        · intro h
          simp at h
        · intro h
          exact absurd (hiff.2 h.2.2) hd
    · have hna : denv.AssetId input.Deposit ≠ tx.Asset := ha
      simp only
      rw [if_pos hna]
      refine ⟨?_, fun _ => ⟨_, rfl⟩, fun _ => ⟨_, rfl⟩⟩
      constructor
      · intro h
        simp at h
      · intro h
        exact absurd h.2.1 ha

/-- C14, at the sample deposit environment: a well-shaped deposit of asset 5 signed
under the domain key 7 is accepted. -/
theorem validateDepositInput_accepts_iff_witness :
    (validateDepositInput sampleDeposit ⟨5, [⟨none⟩], [[⟨7⟩]]⟩ []).outcome =
      Outcome.returned none :=
  ((validateDepositInput_accepts_iff sampleDeposit ⟨5, [⟨none⟩], [[⟨7⟩]]⟩ [] ⟨none⟩ ⟨7⟩
    rfl rfl).1).2 ⟨rfl, rfl, ⟨⟨7⟩⟩, by decide, by decide⟩

/-! ## Theorems: `checkCacheSnapshotTransaction` -/

theorem admitCandidate_of_reaches (st : StoreEnv) (s : Snapshot) (tx : SignedTransaction)
    (h : reachesCandidate st s tx) :
    checkCacheSnapshotTransaction st s =
      admitCandidate st tx
        [StoreCall.CheckTransactionInNode s.NodeId s.Transaction,
          StoreCall.CheckTransactionFinalization s.Transaction,
          StoreCall.ReadTransaction s.Transaction,
          StoreCall.CacheGetTransaction s.Transaction] := by
  obtain ⟨h1, h2, h3, h4⟩ := h
  unfold checkCacheSnapshotTransaction
  simp [h1, h2, h3, h4]

theorem checkCacheSnapshotTransaction_cases (st : StoreEnv) (s : Snapshot) :
    (∀ c ∈ (checkCacheSnapshotTransaction st s).calls, c.isWrite = false) ∨
      ∃ tx, reachesCandidate st s tx := by
  by_cases h1 : (st.CheckTransactionInNode s.NodeId s.Transaction).2 ≠ none ∨
      (st.CheckTransactionInNode s.NodeId s.Transaction).1 = true
  · left
    unfold checkCacheSnapshotTransaction
    dsimp only
    rw [if_pos h1]
    intro c hc
    simp only [List.mem_singleton] at hc
    rw [hc]
    rfl
  by_cases h2 : (st.CheckTransactionFinalization s.Transaction).2 ≠ none ∨
      (st.CheckTransactionFinalization s.Transaction).1 = true
  · left
    unfold checkCacheSnapshotTransaction
    dsimp only
    rw [if_neg h1, if_pos h2]
    intro c hc
    simp only [List.mem_cons, List.mem_singleton, List.not_mem_nil, or_false] at hc
    rcases hc with hc | hc <;> rw [hc] <;> rfl
  by_cases h3 : (st.ReadTransaction s.Transaction).2 ≠ none ∨
      (st.ReadTransaction s.Transaction).1 ≠ none
  · left
    unfold checkCacheSnapshotTransaction
    dsimp only
    rw [if_neg h1, if_neg h2, if_pos h3]
    intro c hc
    simp only [List.mem_cons, List.mem_singleton, List.not_mem_nil, or_false] at hc
    rcases hc with hc | hc | hc <;> rw [hc] <;> rfl
  by_cases h4 : (st.CacheGetTransaction s.Transaction).2 ≠ none
  · left
    unfold checkCacheSnapshotTransaction
    dsimp only
    rw [if_neg h1, if_neg h2, if_neg h3, if_pos h4]
    intro c hc
    simp only [List.mem_cons, List.mem_singleton, List.not_mem_nil, or_false] at hc
    rcases hc with hc | hc | hc | hc <;> rw [hc] <;> rfl
  cases h5 : (st.CacheGetTransaction s.Transaction).1 with
  | none =>
    left
    unfold checkCacheSnapshotTransaction
    dsimp only
    rw [if_neg h1, if_neg h2, if_neg h3, if_neg h4]
    simp only [h5]
    intro c hc
    simp only [List.mem_cons, List.mem_singleton, List.not_mem_nil, or_false] at hc
    rcases hc with hc | hc | hc | hc <;> rw [hc] <;> rfl
  | some tx =>
    right
    simp only [not_or, not_not, Bool.not_eq_true] at h1 h2 h3 h4
    exact ⟨tx, Prod.ext h1.2 h1.1, Prod.ext h2.2 h2.1, Prod.ext h3.2 h3.1, Prod.ext h5 h4⟩

theorem admitCandidate_write (st : StoreEnv) (tx : SignedTransaction) (calls : List StoreCall)
    (hc : ∀ c ∈ calls, c.isWrite = false) :
    (admitCandidate st tx calls).calls.countP StoreCall.isWrite ≤ 1 ∧
      ∀ t, StoreCall.WriteTransaction t ∈ (admitCandidate st tx calls).calls →
        t = tx ∧ passesValidation st tx ∧ st.LockInputs tx false = none := by
  have h0 : calls.countP StoreCall.isWrite = 0 := by
    rw [List.countP_eq_zero]
    intro c hcm
    rw [hc c hcm]
    simp
  have hnot : ∀ t, StoreCall.WriteTransaction t ∉ calls := by
    intro t ht
    have := hc _ ht
    simp [StoreCall.isWrite] at this
  have hmint : ∀ t, StoreCall.WriteTransaction t ∉
      (if st.CheckMint tx = true then [StoreCall.validateMintTransaction tx] else []) := by
    intro t
    split_ifs <;> simp
  have hmint0 : (if st.CheckMint tx = true then [StoreCall.validateMintTransaction tx]
      else []).countP StoreCall.isWrite = 0 := by
    split_ifs <;> simp [StoreCall.isWrite]
  unfold admitCandidate
  dsimp only
  by_cases hm : st.CheckMint tx = true ∧ st.validateMintTransaction tx ≠ none
  · rw [if_pos hm]
    refine ⟨?_, ?_⟩
    · simp only [List.countP_append, h0, hmint0]
      omega
    · intro t ht
      rcases List.mem_append.1 ht with ht | ht
      · exact absurd ht (hnot t)
      · exact absurd ht (hmint t)
  · rw [if_neg hm]
    have hmok : st.CheckMint tx = true → st.validateMintTransaction tx = none := by
      intro hcm
      by_contra hne
      exact hm ⟨hcm, hne⟩
    cases hval : st.Validate tx with
    | some e =>
      refine ⟨?_, ?_⟩
      · simp only [List.countP_append, h0, hmint0]
        simp [StoreCall.isWrite]
      · intro t ht
        simp only [List.mem_append, List.mem_singleton] at ht
        rcases ht with (ht | ht) | ht
        · exact absurd ht (hnot t)
        · exact absurd ht (hmint t)
        · cases ht
    | none =>
      cases hlock : st.LockInputs tx false with
      | some e =>
        refine ⟨?_, ?_⟩
        · simp only [List.countP_append, h0, hmint0]
          simp [StoreCall.isWrite]
        · intro t ht
          simp only [List.mem_append, List.mem_cons, List.mem_singleton, List.not_mem_nil,
            or_false] at ht
          rcases ht with (ht | ht) | ht | ht
          · exact absurd ht (hnot t)
          · exact absurd ht (hmint t)
          · cases ht
          · cases ht
      | none =>
        refine ⟨?_, ?_⟩
        · simp only [List.countP_append, h0, hmint0]
          simp [StoreCall.isWrite]
        · intro t ht
          simp only [List.mem_append, List.mem_cons, List.mem_singleton, List.not_mem_nil,
            or_false] at ht
          rcases ht with (ht | ht) | ht | ht | ht
          · exact absurd ht (hnot t)
          · exact absurd ht (hmint t)
          · cases ht
          · cases ht
          · simp only [StoreCall.WriteTransaction.injEq] at ht
            exact ⟨ht, ⟨hmok, hval⟩, rfl⟩

/-- C15: when `CheckTransactionInNode` reports (false, no error) and
`CheckTransactionFinalization` reports (true, no error), `checkCacheSnapshotTransaction`
returns (nil, nil) after these two lookups and calls neither `Validate` nor
`LockInputs` nor `WriteTransaction`. -/
theorem checkCacheSnapshotTransaction_finalized (st : StoreEnv) (s : Snapshot)
    (h1 : st.CheckTransactionInNode s.NodeId s.Transaction = (false, none))
    (h2 : st.CheckTransactionFinalization s.Transaction = (true, none)) :
    (checkCacheSnapshotTransaction st s).tx = none ∧
      (checkCacheSnapshotTransaction st s).err = none ∧
      (checkCacheSnapshotTransaction st s).calls =
        [StoreCall.CheckTransactionInNode s.NodeId s.Transaction,
          StoreCall.CheckTransactionFinalization s.Transaction] ∧
      ∀ tx force,
        StoreCall.Validate tx ∉ (checkCacheSnapshotTransaction st s).calls ∧
        StoreCall.LockInputs tx force ∉ (checkCacheSnapshotTransaction st s).calls ∧
        StoreCall.WriteTransaction tx ∉ (checkCacheSnapshotTransaction st s).calls := by
  have hrun : checkCacheSnapshotTransaction st s =
      ⟨none, none, [StoreCall.CheckTransactionInNode s.NodeId s.Transaction,
        StoreCall.CheckTransactionFinalization s.Transaction]⟩ := by
    unfold checkCacheSnapshotTransaction
    simp [h1, h2]
  rw [hrun]
  refine ⟨rfl, rfl, rfl, ?_⟩
  intro tx force
  simp

/-- C15, at a store that knows the transaction as finalized. -/
theorem checkCacheSnapshotTransaction_finalized_witness :
    (checkCacheSnapshotTransaction
        { sampleStore with CheckTransactionFinalization := fun _ => (true, none) }
        shellSnapshot).tx = none ∧
      (checkCacheSnapshotTransaction
        { sampleStore with CheckTransactionFinalization := fun _ => (true, none) }
        shellSnapshot).err = none :=
  ⟨(checkCacheSnapshotTransaction_finalized
      { sampleStore with CheckTransactionFinalization := fun _ => (true, none) }
      shellSnapshot rfl rfl).1,
    (checkCacheSnapshotTransaction_finalized
      { sampleStore with CheckTransactionFinalization := fun _ => (true, none) }
      shellSnapshot rfl rfl).2.1⟩

/-- C16: for a snapshot that reaches the cached candidate, if the mint validation of a
mint transaction or `tx.Validate` returns an error, `checkCacheSnapshotTransaction`
returns (nil, nil) and calls neither `LockInputs` nor `WriteTransaction`. -/
theorem checkCacheSnapshotTransaction_invalid (st : StoreEnv) (s : Snapshot)
    (tx : SignedTransaction) (hreach : reachesCandidate st s tx)
    (hbad : (st.CheckMint tx = true ∧ st.validateMintTransaction tx ≠ none) ∨
      st.Validate tx ≠ none) :
    (checkCacheSnapshotTransaction st s).tx = none ∧
      (checkCacheSnapshotTransaction st s).err = none ∧
      ∀ t force,
        StoreCall.LockInputs t force ∉ (checkCacheSnapshotTransaction st s).calls ∧
        StoreCall.WriteTransaction t ∉ (checkCacheSnapshotTransaction st s).calls := by
  rw [admitCandidate_of_reaches st s tx hreach]
  unfold admitCandidate
  by_cases hm : st.CheckMint tx = true ∧ st.validateMintTransaction tx ≠ none
  · dsimp only
    rw [if_pos hm]
    refine ⟨rfl, rfl, ?_⟩
    intro t force
    simp [hm.1]
  · have hv : st.Validate tx ≠ none := by
      rcases hbad with hbad | hbad
      · exact absurd hbad hm
      · exact hbad
    dsimp only
    rw [if_neg hm]
    cases hval : st.Validate tx with
    | none => exact absurd hval hv
    | some e =>
      refine ⟨rfl, rfl, ?_⟩
      intro t force
      by_cases hc : st.CheckMint tx = true <;> simp [hc]

/-- C16, at a store whose general validation fails. -/
theorem checkCacheSnapshotTransaction_invalid_witness :
    (checkCacheSnapshotTransaction { sampleStore with Validate := fun _ => some "invalid" }
        shellSnapshot).tx = none ∧
      (checkCacheSnapshotTransaction { sampleStore with Validate := fun _ => some "invalid" }
        shellSnapshot).err = none :=
  ⟨(checkCacheSnapshotTransaction_invalid
      { sampleStore with Validate := fun _ => some "invalid" } shellSnapshot sampleTx
      ⟨rfl, rfl, rfl, rfl⟩ (Or.inr (by decide))).1,
    (checkCacheSnapshotTransaction_invalid
      { sampleStore with Validate := fun _ => some "invalid" } shellSnapshot sampleTx
      ⟨rfl, rfl, rfl, rfl⟩ (Or.inr (by decide))).2.1⟩

/-- C17: for a snapshot whose candidate passes validation, an error of
`tx.LockInputs(store, false)` is returned as (nil, that error) and `WriteTransaction`
is not called; and for every call, `WriteTransaction` is called at most once, and only
for the candidate of a snapshot that reached it, passed validation and acquired the
locks. -/
theorem checkCacheSnapshotTransaction_lock_failure (st : StoreEnv) (s : Snapshot) :
    (∀ tx e, reachesCandidate st s tx → passesValidation st tx →
        st.LockInputs tx false = some e →
        (checkCacheSnapshotTransaction st s).tx = none ∧
        (checkCacheSnapshotTransaction st s).err = some e ∧
        ∀ t, StoreCall.WriteTransaction t ∉ (checkCacheSnapshotTransaction st s).calls) ∧
      (checkCacheSnapshotTransaction st s).calls.countP StoreCall.isWrite ≤ 1 ∧
      ∀ t, StoreCall.WriteTransaction t ∈ (checkCacheSnapshotTransaction st s).calls →
        reachesCandidate st s t ∧ passesValidation st t ∧ st.LockInputs t false = none := by
  have hfour : ∀ c ∈ [StoreCall.CheckTransactionInNode s.NodeId s.Transaction,
      StoreCall.CheckTransactionFinalization s.Transaction,
      StoreCall.ReadTransaction s.Transaction,
      StoreCall.CacheGetTransaction s.Transaction], c.isWrite = false := by
    intro c hc
    simp only [List.mem_cons, List.mem_singleton, List.not_mem_nil, or_false] at hc
    rcases hc with hc | hc | hc | hc <;> rw [hc] <;> rfl
  have hgen : (checkCacheSnapshotTransaction st s).calls.countP StoreCall.isWrite ≤ 1 ∧
      ∀ t, StoreCall.WriteTransaction t ∈ (checkCacheSnapshotTransaction st s).calls →
        reachesCandidate st s t ∧ passesValidation st t ∧ st.LockInputs t false = none := by
    rcases checkCacheSnapshotTransaction_cases st s with hno | ⟨tx, hreach⟩
    · refine ⟨?_, ?_⟩
      · have : (checkCacheSnapshotTransaction st s).calls.countP StoreCall.isWrite = 0 := by
          rw [List.countP_eq_zero]
          intro c hc
          rw [hno c hc]
          simp
        omega
      · intro t ht
        have := hno _ ht
        simp [StoreCall.isWrite] at this
    · rw [admitCandidate_of_reaches st s tx hreach]
      obtain ⟨hcount, hmem⟩ := admitCandidate_write st tx _ hfour
      refine ⟨hcount, ?_⟩
      intro t ht
      obtain ⟨heq, hpass, hlock⟩ := hmem t ht
      rw [heq]
      exact ⟨hreach, hpass, hlock⟩
  refine ⟨?_, hgen⟩
  intro tx e hreach hpass hlock
  have hnow : ∀ t, StoreCall.WriteTransaction t ∉ (checkCacheSnapshotTransaction st s).calls := by
    intro t ht
    obtain ⟨hr, _, hl⟩ := hgen.2 t ht
    have heq : t = tx := by
      have h4 := hr.2.2.2
      rw [hreach.2.2.2] at h4
      simp only [Prod.mk.injEq, Option.some.injEq, and_true] at h4
      exact h4.symm
    rw [heq, hlock] at hl
    simp at hl
  refine ⟨?_, ?_, hnow⟩
  · rw [admitCandidate_of_reaches st s tx hreach]
    unfold admitCandidate
    dsimp only
    have hm : ¬ (st.CheckMint tx = true ∧ st.validateMintTransaction tx ≠ none) :=
      fun h => h.2 (hpass.1 h.1)
    rw [if_neg hm]
    simp only [hpass.2, hlock]
  · rw [admitCandidate_of_reaches st s tx hreach]
    unfold admitCandidate
    dsimp only
    have hm : ¬ (st.CheckMint tx = true ∧ st.validateMintTransaction tx ≠ none) :=
      fun h => h.2 (hpass.1 h.1)
    rw [if_neg hm]
    simp only [hpass.2, hlock]

/-- C17, at a store whose input locks are taken. -/
theorem checkCacheSnapshotTransaction_lock_failure_witness :
    (checkCacheSnapshotTransaction { sampleStore with LockInputs := fun _ _ => some "locked" }
        shellSnapshot).tx = none ∧
      (checkCacheSnapshotTransaction { sampleStore with LockInputs := fun _ _ => some "locked" }
        shellSnapshot).err = some "locked" ∧
      ∀ t, StoreCall.WriteTransaction t ∉
        (checkCacheSnapshotTransaction { sampleStore with LockInputs := fun _ _ => some "locked" }
          shellSnapshot).calls :=
  (checkCacheSnapshotTransaction_lock_failure
    { sampleStore with LockInputs := fun _ _ => some "locked" } shellSnapshot).1
    sampleTx "locked" ⟨rfl, rfl, rfl, rfl⟩ ⟨fun _ => rfl, rfl⟩ rfl

/-! ## Theorems: the deferral of `signSelfSnapshot` -/

theorem queueSnapshotOrPanic_frame (env : Env) (node : Node) (s : Snapshot) (fin : Bool)
    (calls : List Call) :
    (queueSnapshotOrPanic env node s fin calls).node = node ∧
      (queueSnapshotOrPanic env node s fin calls).snap = s := by
  unfold queueSnapshotOrPanic
  split <;> exact ⟨rfl, rfl⟩

/-- C18: when a call of `signSelfSnapshot` reaches the backpressure heuristic (the
precondition holds and the local node has its cache and final round) and the heuristic
reports no capacity, the call is the re-enqueueing of the snapshot on the node with the
sorted cache pool: `Graph` is unchanged, the only collaborator call is the enqueueing,
so nothing is sent, the snapshot keeps the timestamp 0 and no signatures, and the
cache pool holds the same entries. -/
theorem signSelfSnapshot_defers (env : Env) (clock : Clock) (node : Node) (s : Snapshot)
    (tx : SignedTransaction) (cache : CacheRound) (final : FinalRound)
    (hpre : s.NodeId = node.IdForNetwork ∧ s.Signatures.length = 0 ∧ s.Timestamp = 0)
    (hc : node.Graph.CacheRound s.NodeId = some cache)
    (hf : node.Graph.FinalRound s.NodeId = some final)
    (hcap : (checkCacheCapability env clock.capability node.CachePool).1 = false) :
    signSelfSnapshot env clock node s tx =
        queueSnapshotOrPanic env
          { node with CachePool := (checkCacheCapability env clock.capability node.CachePool).2 }
          s false [] ∧
      (signSelfSnapshot env clock node s tx).node.Graph = node.Graph ∧
      (signSelfSnapshot env clock node s tx).calls = [Call.QueueAppendSnapshot s false] ∧
      (signSelfSnapshot env clock node s tx).snap.Timestamp = 0 ∧
      (signSelfSnapshot env clock node s tx).snap.Signatures = [] ∧
      ¬ (signSelfSnapshot env clock node s tx).signed ∧
      (signSelfSnapshot env clock node s tx).node.CachePool.Perm node.CachePool := by
  have hrun : signSelfSnapshot env clock node s tx =
      queueSnapshotOrPanic env
        { node with CachePool := (checkCacheCapability env clock.capability node.CachePool).2 }
        s false [] := by
    have hp : ¬ (s.NodeId ≠ node.IdForNetwork ∨ s.Signatures.length ≠ 0 ∨ s.Timestamp ≠ 0) := by
      simp [hpre.1, hpre.2.1, hpre.2.2]
    unfold signSelfSnapshot
    rw [if_neg hp, hc, hf]
    dsimp only
    rw [hcap]
    rfl
  refine ⟨hrun, ?_, ?_, ?_, ?_, ?_, ?_⟩
  · rw [hrun, (queueSnapshotOrPanic_frame _ _ _ _ _).1]
  · rw [hrun, queueSnapshotOrPanic_calls]
    rfl
  · rw [hrun, (queueSnapshotOrPanic_frame _ _ _ _ _).2]
    exact hpre.2.2
  · rw [hrun, (queueSnapshotOrPanic_frame _ _ _ _ _).2]
    exact List.length_eq_zero.1 hpre.2.1
  · rw [hrun]
    exact queueSnapshotOrPanic_not_signed _ _ _ _
  · rw [hrun, (queueSnapshotOrPanic_frame _ _ _ _ _).1]
    exact checkCacheCapability_perm env clock.capability node.CachePool

/-- C18, at the sample environment: two cached snapshots spread over 7 and the clock
at 110. -/
theorem signSelfSnapshot_defers_witness :
    (signSelfSnapshot sampleEnv clockCrowded crowdedNode shellSnapshot sampleTx).calls =
        [Call.QueueAppendSnapshot shellSnapshot false] ∧
      (signSelfSnapshot sampleEnv clockCrowded crowdedNode shellSnapshot sampleTx).node.Graph =
        crowdedNode.Graph ∧
      (signSelfSnapshot sampleEnv clockCrowded crowdedNode shellSnapshot
        sampleTx).node.CachePool.Perm crowdedNode.CachePool :=
  ⟨(signSelfSnapshot_defers sampleEnv clockCrowded crowdedNode shellSnapshot sampleTx
      ⟨0, 1, 50, some ⟨1000, 2000⟩, []⟩ ⟨0, 0, 10, 1000⟩ ⟨rfl, rfl, rfl⟩ rfl rfl
      (by decide)).2.2.1,
    (signSelfSnapshot_defers sampleEnv clockCrowded crowdedNode shellSnapshot sampleTx
      ⟨0, 1, 50, some ⟨1000, 2000⟩, []⟩ ⟨0, 0, 10, 1000⟩ ⟨rfl, rfl, rfl⟩ rfl rfl
      (by decide)).2.1,
    (signSelfSnapshot_defers sampleEnv clockCrowded crowdedNode shellSnapshot sampleTx
      ⟨0, 1, 50, some ⟨1000, 2000⟩, []⟩ ⟨0, 0, 10, 1000⟩ ⟨rfl, rfl, rfl⟩ rfl rfl
      (by decide)).2.2.2.2.2.2⟩

/-! ## Theorems: the history window of `determinBestRound` -/

theorem trimRounds_eq_drop (env : Env) (rounds : List FinalRound) :
    trimRounds env rounds =
      rounds.drop (rounds.length - min rounds.length env.SnapshotReferenceThreshold) := by
  unfold trimRounds
  split_ifs with h
  · rw [Nat.min_eq_right (Nat.le_of_lt h)]
  · rw [Nat.min_eq_left (Nat.le_of_not_gt h)]
    simp

theorem bestLoop_history (env : Env) (self : Nat) (clock : Nat → Nat) :
    ∀ (hist : RoundHistoryMap) (k : Nat) (st : BestState),
      (bestLoop env self clock k st hist).1 ≠ none →
      (bestLoop env self clock k st hist).2 =
        hist.map (fun e => (e.1, trimRounds env e.2)) := by
  intro hist
  induction hist with
  | nil => intro k st _; rfl
  | cons e rest ih =>
    intro k st hret
    obtain ⟨id, rounds⟩ := e
    cases htrim : trimRounds env rounds with
    | nil => simp [bestLoop, htrim] at hret
    | cons r0 tl =>
      simp only [bestLoop, htrim] at hret ⊢
      rw [ih _ _ hret]
      simp [htrim]

/-- C19: when `determinBestRound` returns, every entry of `RoundHistory` keeps its key
and its history is replaced by the suffix of the previous history of length
min(previous length, `SnapshotReferenceThreshold`): the oldest rounds are dropped and
the retained ones keep their order. -/
theorem determinBestRound_bounds_history (env : Env) (self : Nat) (clock : Nat → Nat)
    (hist : RoundHistoryMap) (h : (determinBestRound env self clock hist).1 ≠ none) :
    (determinBestRound env self clock hist).2 =
        hist.map (fun e =>
          (e.1, e.2.drop (e.2.length - min e.2.length env.SnapshotReferenceThreshold))) ∧
      ∀ e ∈ hist,
        e.2.drop (e.2.length - min e.2.length env.SnapshotReferenceThreshold) <:+ e.2 ∧
        (e.2.drop (e.2.length - min e.2.length env.SnapshotReferenceThreshold)).length =
          min e.2.length env.SnapshotReferenceThreshold := by
  constructor
  · have hret : (bestLoop env self clock 0 { best := none, start := 0, height := 0 }
        hist).1 ≠ none := by
      intro hn
      apply h
      unfold determinBestRound
      simp [hn]
    unfold determinBestRound
    dsimp only
    rw [bestLoop_history env self clock hist 0 _ hret]
    apply List.map_congr_left
    intro e _
    rw [trimRounds_eq_drop]
  · intro e _
    refine ⟨List.drop_suffix _ _, ?_⟩
    rw [List.length_drop]
    omega

/-- C19, at the sample environment with the window 5: a history of seven rounds keeps
its last five. -/
theorem determinBestRound_bounds_history_witness :
    (determinBestRound sampleEnv 0 (fun _ => 100) [(1, sevenRounds)]).2 =
      [((1 : CryptoHash), sevenRounds)].map (fun e =>
        (e.1, e.2.drop (e.2.length - min e.2.length sampleEnv.SnapshotReferenceThreshold))) :=
  (determinBestRound_bounds_history sampleEnv 0 (fun _ => 100) [(1, sevenRounds)]
    (by decide)).1

/-! ## Theorems: `removeFromCache` -/

theorem findIdx?_find? (p : Snapshot → Bool) :
    ∀ (pool : List Snapshot) (k i : Nat), List.findIdx? p pool k = some i →
      k ≤ i ∧ ∃ c, pool[i - k]? = some c ∧ pool.find? p = some c := by
  intro pool
  induction pool with
  | nil => intro k i h; simp [List.findIdx?] at h
  | cons x xs ih =>
    intro k i h
    rw [List.findIdx?_cons] at h
    by_cases hp : p x = true
    · rw [if_pos hp] at h
      simp only [Option.some.injEq] at h
      subst h
      exact ⟨le_refl _, x, by simp, by simp [List.find?_cons, hp]⟩
    · rw [if_neg hp] at h
      obtain ⟨hle, c, hc, hf⟩ := ih (k + 1) i h
      refine ⟨by omega, c, ?_, ?_⟩
      · have : i - k = (i - (k + 1)) + 1 := by omega
        rw [this, List.getElem?_cons_succ]
        exact hc
      · simp only [Bool.not_eq_true] at hp
        simp [List.find?_cons, hp, hf]

theorem perm_swap_remove : ∀ (pool : List Snapshot) (i : Nat) (c last : Snapshot),
    pool[i]? = some c → pool.getLast? = some last →
      pool.Perm (c :: (pool.set i last).dropLast) := by
  intro pool
  induction pool with
  | nil => intro i c last h; simp at h
  | cons x rest ih =>
    intro i c last hc hl
    cases rest with
    | nil =>
      cases i with
      | zero =>
        simp only [List.getElem?_cons_zero, Option.some.injEq] at hc
        subst hc
        simp
      | succ j => simp at hc
    | cons y t =>
      rw [List.getLast?_cons_cons] at hl
      cases i with
      | zero =>
        simp only [List.getElem?_cons_zero, Option.some.injEq] at hc
        subst hc
        rw [List.set_cons_zero, List.dropLast_cons₂]
        refine List.Perm.cons _ ?_
        obtain ⟨ys, hys⟩ := List.getLast?_eq_some_iff.1 hl
        rw [hys, List.dropLast_concat]
        exact List.perm_append_comm
      | succ j =>
        rw [List.getElem?_cons_succ] at hc
        have hne : (y :: t).set j last ≠ [] := by
          intro he
          have := congrArg List.length he
          simp at this
        rw [List.set_cons_succ, List.dropLast_cons_of_ne_nil hne]
        exact (List.Perm.cons x (ih j c last hc hl)).trans (List.Perm.swap c x _)

theorem removeFromCache_of_find (pool : List Snapshot) (s c : Snapshot)
    (h : pool.find? (fun c => c.Hash == s.Hash) = some c) :
    pool.Perm (c :: removeFromCache pool s) := by
  cases hidx : pool.findIdx? (fun c => c.Hash == s.Hash) with
  | none =>
    have := List.findIdx?_eq_none_iff.1 hidx c (List.mem_of_find?_eq_some h)
    rw [List.find?_some h] at this
    exact absurd this (by simp)
  | some i =>
    obtain ⟨_, c2, hc2, hf⟩ := findIdx?_find? _ pool 0 i hidx
    rw [h] at hf
    simp only [Option.some.injEq] at hf
    subst hf
    have hne : pool ≠ [] := by
      intro he
      rw [he] at h
      simp at h
    have hl := List.getLast?_eq_getLast pool hne
    unfold removeFromCache
    rw [hidx, hl]
    exact perm_swap_remove pool i c _ hc2 hl

/-- C20: if some entry of the cache pool has the hash of `s`, the pool `removeFromCache`
leaves is one entry shorter and, as a multiset, the original pool without the first
such entry; if no entry has that hash, the pool is unchanged; in both cases every entry
with another hash is retained as often as it occurred. -/
theorem removeFromCache_removes_first (pool : List Snapshot) (s : Snapshot) :
    ((∃ x ∈ pool, x.Hash = s.Hash) →
        ∃ c, pool.find? (fun c => c.Hash == s.Hash) = some c ∧
          pool.Perm (c :: removeFromCache pool s) ∧
          (removeFromCache pool s).length + 1 = pool.length) ∧
      ((∀ x ∈ pool, x.Hash ≠ s.Hash) → removeFromCache pool s = pool) ∧
      ∀ x ∈ pool, x.Hash ≠ s.Hash →
        (removeFromCache pool s).count x = pool.count x ∧ x ∈ removeFromCache pool s := by
  have hnone : (∀ x ∈ pool, x.Hash ≠ s.Hash) → removeFromCache pool s = pool := by
    intro hall
    have : pool.findIdx? (fun c => c.Hash == s.Hash) = none := by
      rw [List.findIdx?_eq_none_iff]
      intro x hx
      simpa using hall x hx
    unfold removeFromCache
    rw [this]
  have hsome : (∃ x ∈ pool, x.Hash = s.Hash) →
      ∃ c, pool.find? (fun c => c.Hash == s.Hash) = some c ∧
        pool.Perm (c :: removeFromCache pool s) ∧
        (removeFromCache pool s).length + 1 = pool.length := by
    rintro ⟨x, hx, hxh⟩
    cases hf : pool.find? (fun c => c.Hash == s.Hash) with
    | none =>
      have := List.find?_eq_none.1 hf x hx
      simp [hxh] at this
    | some c =>
      have hp := removeFromCache_of_find pool s c hf
      refine ⟨c, rfl, hp, ?_⟩
      have := hp.length_eq
      simp only [List.length_cons] at this
      omega
  refine ⟨hsome, hnone, ?_⟩
  intro x hx hxh
  by_cases hex : ∃ y ∈ pool, y.Hash = s.Hash
  · obtain ⟨c, hf, hp, _⟩ := hsome hex
    have hch : c.Hash = s.Hash := by simpa using List.find?_some hf
    have hne : c ≠ x := by
      intro he
      rw [he] at hch
      exact hxh hch
    have hcount := hp.count_eq x
    rw [List.count_cons] at hcount
    have hbeq : (c == x) = false := by simpa using hne
    rw [hbeq] at hcount
    simp only [Bool.false_eq_true, if_false, Nat.add_zero] at hcount
    refine ⟨hcount.symm, ?_⟩
    rcases List.mem_cons.1 (hp.mem_iff.1 hx) with hm | hm
    · exact absurd hm.symm hne
    · exact hm
  · have hall : ∀ y ∈ pool, y.Hash ≠ s.Hash := by
      intro y hy hyh
      exact hex ⟨y, hy, hyh⟩
    rw [hnone hall]
    exact ⟨rfl, hx⟩

/-- C20, at a pool of three entries from which the entry with hash 2 is removed. -/
theorem removeFromCache_removes_first_witness :
    ∃ c, [cached 1 100, cached 2 101, cached 3 102].find? (fun c =>
          c.Hash == (cached 2 101).Hash) = some c ∧
      [cached 1 100, cached 2 101, cached 3 102].Perm
        (c :: removeFromCache [cached 1 100, cached 2 101, cached 3 102] (cached 2 101)) ∧
      (removeFromCache [cached 1 100, cached 2 101, cached 3 102] (cached 2 101)).length + 1 =
        [cached 1 100, cached 2 101, cached 3 102].length :=
  (removeFromCache_removes_first [cached 1 100, cached 2 101, cached 3 102] (cached 2 101)).1
    ⟨cached 2 101, by decide, rfl⟩

end Mixin
